import Mathlib

/-!
# Verification of the cf-push-relay core

A shallow embedding of the push-relay Cloudflare Worker:

* `kv.ts` — the per-tenant device registry over the DEVICE_TOKENS key-value
  namespace (`getDevices`, `addDevice`, `removeDevice`, `removeDeviceGlobally`);
* `apns.ts` / `fcm.ts` — credential caching over the AUTH_TOKENS namespace
  (`getApnsJwt`, `getFcmAccessToken`, `exchangeForAccessToken`) and the two
  per-device send adapters (`sendApns`, `sendFcm`);
* `router.ts` — the dispatch path of `handlePush`.

Modelling conventions:

* The external key-value stores are association lists.  The DEVICE_TOKENS
  namespace maps string keys to device lists (the JSON `{ devices: [...] }`
  wrapper is identified with its payload).  The AUTH_TOKENS namespace maps
  string keys to values with absolute expiry instants; a read at time `now`
  only returns a non-expired value, which models `expirationTtl`.
* The KV `list` operation is paginated: a page holds at most `pageSize`
  matching keys in lexicographic order, and the returned cursor is the last
  key of the page (continuation resumes strictly after it).  `pageSize` is a
  parameter of the collaborator, positive in any real deployment.
* Network and cryptographic effects are oracle parameters: a `fetch` outcome
  is `Except String r` (`.error` is a rejected promise carrying the error
  message, `.ok` a structured view of the response), and WebCrypto key import
  is `Except String Unit` (`.error` models a malformed key).  A JavaScript
  exception is `Except.error` with the error's message; state left behind by
  a computation that throws is threaded explicitly.
-/

namespace PushRelay

/-- Platform tag of a registered device (types.ts: `"ios" | "android"`). -/
inductive Platform where
  | ios
  | android
deriving DecidableEq, Repr

/-- types.ts `DeviceRegistration`: one stored device record. -/
structure DeviceRegistration where
  platform : Platform
  device_token : String
  bundle_id : Option String
  registered_at : String
deriving DecidableEq, Repr

/-- Delivery status of types.ts `PushResult`. -/
inductive PushStatus where
  | sent
  | failed
  | removed
deriving DecidableEq, Repr

/-- types.ts `PushResult`: per-device outcome of a dispatch. -/
structure PushResult where
  platform : String
  status : PushStatus
  reason : Option String
deriving DecidableEq, Repr

/-- The DEVICE_TOKENS key-value namespace: string keys to device lists.
The JSON envelope `{ devices: [...] }` stored by kv.ts is identified with
the device list itself. -/
structure KVStore where
  entries : List (String × List DeviceRegistration)
deriving DecidableEq, Repr

/-- `kv.get(k, "json")`: the value stored under `k`, if any. -/
def kvGet (s : KVStore) (k : String) : Option (List DeviceRegistration) :=
  (s.entries.find? (fun e => e.1 == k)).map Prod.snd

/-- `kv.put(k, v)`: overwrite the value under `k` in place, or append a fresh
entry when the key is absent. -/
def kvPut (s : KVStore) (k : String) (v : List DeviceRegistration) : KVStore :=
  if s.entries.any (fun e => e.1 == k) then
    ⟨s.entries.map (fun e => if e.1 == k then (k, v) else e)⟩
  else
    ⟨s.entries ++ [(k, v)]⟩

/-- `kv.delete(k)`: drop the entry under `k`. -/
def kvDelete (s : KVStore) (k : String) : KVStore :=
  ⟨s.entries.filter (fun e => !(e.1 == k))⟩

/-- kv.ts `KEY_PREFIX`: the key namespace of the device registry. -/
def KEY_STEM : String := "devices:"

/-- kv.ts `key`: storage key for a relay token's device list. -/
def key (relayToken : String) : String := KEY_STEM ++ relayToken

/-- True when `k` lies in the `devices:` key namespace (the key filter the
KV `list({ prefix })` call applies). -/
def inStem (k : String) : Bool := k.take KEY_STEM.length == KEY_STEM

/-- kv.ts `getDevices`: read a relay token's device list, `[]` when absent
(`raw?.devices ?? []`). -/
def getDevices (s : KVStore) (relayToken : String) : List DeviceRegistration :=
  (kvGet s (key relayToken)).getD []

/-- kv.ts `addDevice`: register a device, de-duplicating by `device_token`
(`findIndex` then update in place, else push). -/
def addDevice (s : KVStore) (relayToken : String) (device : DeviceRegistration) : KVStore :=
  let devices := getDevices s relayToken
  let idx := devices.findIdx (fun d => d.device_token == device.device_token)
  let updated := if idx < devices.length then devices.set idx device else devices ++ [device]
  kvPut s (key relayToken) updated

/-- kv.ts `removeDevice`: drop a device by token.  Returns whether one was
found, deleting the whole entry when the remaining list is empty. -/
def removeDevice (s : KVStore) (relayToken : String) (deviceToken : String) :
    Bool × KVStore :=
  let devices := getDevices s relayToken
  let filtered := devices.filter (fun d => !(d.device_token == deviceToken))
  if filtered.length = devices.length then (false, s)
  else if filtered.length = 0 then (true, kvDelete s (key relayToken))
  else (true, kvPut s (key relayToken) filtered)

/-- Result shape of the KV `list` call: a page of keys, the completion flag,
and the continuation cursor. -/
structure KVListResult where
  keys : List String
  list_complete : Bool
  cursor : String
deriving DecidableEq, Repr

/-- Does `k` come strictly after the cursor (no cursor admits every key)? -/
def afterCur (cursor : Option String) (k : String) : Bool :=
  match cursor with
  | none => true
  | some c => decide (c.data < k.data)

/-- Model of `kv.list({ prefix: KEY_PREFIX, cursor })`: the keys in the
`devices:` namespace strictly after the cursor, in lexicographic order,
truncated to one page of `pageSize` keys; the returned cursor is the last
key of the page. -/
def kvList (s : KVStore) (pageSize : Nat) (cursor : Option String) : KVListResult :=
  let matching :=
    List.insertionSort (fun a b : String => a.data ≤ b.data)
      ((s.entries.map Prod.fst).filter (fun k => inStem k && afterCur cursor k))
  { keys := matching.take pageSize
    list_complete := decide (matching.length ≤ pageSize)
    cursor := (matching.take pageSize).getLastD "" }

/-- The inner loop of kv.ts `removeDeviceGlobally`: run `removeDevice` for
every listed key (`entry.name.slice(KEY_PREFIX.length)` recovers the relay
token) and count the removals. -/
def scanKeys (deviceToken : String) : KVStore → List String → Nat × KVStore
  | s, [] => (0, s)
  | s, k :: ks =>
    let r := removeDevice s (k.drop KEY_STEM.length) deviceToken
    let rest := scanKeys deviceToken r.2 ks
    ((if r.1 then 1 else 0) + rest.1, rest.2)

/-- The `do … while (cursor)` pagination loop of `removeDeviceGlobally`,
with explicit fuel bounding the number of pages. -/
def rdgLoop (pageSize : Nat) (deviceToken : String) :
    Nat → KVStore → Option String → Nat × KVStore
  | 0, s, _ => (0, s)
  | fuel + 1, s, cursor =>
    let lst := kvList s pageSize cursor
    let r := scanKeys deviceToken s lst.keys
    if lst.list_complete then r
    else
      let r2 := rdgLoop pageSize deviceToken fuel r.2 (some lst.cursor)
      (r.1 + r2.1, r2.2)

/-- kv.ts `removeDeviceGlobally`: purge a device token from every relay
token's entry, following list pagination until exhausted.  One page handles
at least one key, so `entries.length + 1` pages always suffice. -/
def removeDeviceGlobally (pageSize : Nat) (s : KVStore) (deviceToken : String) :
    Nat × KVStore :=
  rdgLoop pageSize deviceToken (s.entries.length + 1) s none

/-! ## Credential cache (apns.ts / fcm.ts over the AUTH_TOKENS namespace) -/

/-- A cached credential in the AUTH_TOKENS namespace: the value together with
the absolute instant at which the KV store expires it (`put` with
`expirationTtl` sets it to `now + ttl`). -/
structure CredEntry where
  value : String
  expiresAt : Nat
deriving DecidableEq, Repr

/-- The AUTH_TOKENS key-value namespace. -/
structure CredStore where
  entries : List (String × CredEntry)
deriving DecidableEq, Repr

/-- `AUTH_TOKENS.get(k)` at time `now`: a stored value is visible only
before its expiry instant. -/
def credGet (s : CredStore) (now : Nat) (k : String) : Option String :=
  match s.entries.find? (fun e => e.1 == k) with
  | some e => if now < e.2.expiresAt then some e.2.value else none
  | none => none

/-- `AUTH_TOKENS.put(k, v, { expirationTtl: ttl })` at time `now`. -/
def credPut (s : CredStore) (now : Nat) (k : String) (v : String) (ttl : Nat) : CredStore :=
  ⟨s.entries.filter (fun e => !(e.1 == k)) ++ [(k, ⟨v, now + ttl⟩)]⟩

/-- apns.ts `AUTH_TOKEN_KV_KEY`. -/
def APNS_JWT_KV_KEY : String := "apns:jwt"

/-- apns.ts `JWT_TTL_SECONDS` (50 minutes; APNs accepts at most 60). -/
def JWT_TTL_SECONDS : Nat := 50 * 60

/-- fcm.ts `AUTH_TOKEN_KV_KEY`. -/
def FCM_TOKEN_KV_KEY : String := "fcm:access_token"

/-- fcm.ts `TOKEN_TTL_SECONDS` (55 minutes; Google tokens last 60). -/
def TOKEN_TTL_SECONDS : Nat := 55 * 60

/-- apns.ts `generateApnsJwt`: import the `.p8` key and sign the compact
ES256 token.  Key import (`importApnsKey`) is the WebCrypto oracle
`keyImport` — `.error` is a malformed key rejecting the promise — and the
signed compact token produced on success is the oracle value `signedJwt`. -/
def generateApnsJwt (keyImport : Except String Unit) (signedJwt : String) :
    Except String String :=
  keyImport.map (fun _ => signedJwt)

/-- apns.ts `getApnsJwt`: return the cached JWT when present, else generate
on demand, cache with `JWT_TTL_SECONDS`, and return it.  A throw during
generation leaves the cache untouched. -/
def getApnsJwt (now : Nat) (s : CredStore) (keyImport : Except String Unit)
    (signedJwt : String) : Except String String × CredStore :=
  match credGet s now APNS_JWT_KV_KEY with
  | some cached => (.ok cached, s)
  | none =>
    match generateApnsJwt keyImport signedJwt with
    | .error e => (.error e, s)
    | .ok jwt => (.ok jwt, credPut s now APNS_JWT_KV_KEY jwt JWT_TTL_SECONDS)

/-- Structured view of the OAuth2 token-endpoint response: HTTP status, raw
body text, and the `access_token` field of the parsed JSON body. -/
structure ExchangeResp where
  status : Nat
  body : String
  access_token : String
deriving DecidableEq, Repr

/-- fcm.ts `generateServiceAccountJwt`: import the RSA service-account key
and sign the RS256 assertion; same oracle shape as `generateApnsJwt`. -/
def generateServiceAccountJwt (keyImport : Except String Unit) (signedJwt : String) :
    Except String String :=
  keyImport.map (fun _ => signedJwt)

/-- fcm.ts `exchangeForAccessToken`: POST the assertion to the token
endpoint.  A non-2xx response throws an error carrying the endpoint's status
and body; a 2xx response yields the parsed `access_token`. -/
def exchangeForAccessToken (fetchRes : Except String ExchangeResp) :
    Except String String :=
  match fetchRes with
  | .error e => .error e
  | .ok res =>
    if 200 ≤ res.status ∧ res.status ≤ 299 then .ok res.access_token
    else .error ("OAuth2 token exchange failed: " ++ toString res.status ++ " " ++ res.body)

/-- fcm.ts `getFcmAccessToken`: return the cached access token when present,
else generate the assertion, exchange it, cache the access token with
`TOKEN_TTL_SECONDS`, and return it.  A throw during generation or exchange
leaves the cache untouched. -/
def getFcmAccessToken (now : Nat) (s : CredStore) (keyImport : Except String Unit)
    (signedJwt : String) (exchangeRes : Except String ExchangeResp) :
    Except String String × CredStore :=
  match credGet s now FCM_TOKEN_KV_KEY with
  | some cached => (.ok cached, s)
  | none =>
    match (generateServiceAccountJwt keyImport signedJwt).bind
        (fun _ => exchangeForAccessToken exchangeRes) with
    | .error e => (.error e, s)
    | .ok token => (.ok token, credPut s now FCM_TOKEN_KV_KEY token TOKEN_TTL_SECONDS)

/-! ## Send adapters (apns.ts `sendApns`, fcm.ts `sendFcm`)

Each adapter takes the outcome of its credential getter (`credRes`) and of
its upstream `fetch` call, and threads the DEVICE_TOKENS store so the
permanent-invalidity purge is visible in the result.  The credential getter
runs *before* the `try` block in the source, so its throw propagates
(`Except.error`); everything from `fetch` on is inside the `try`. -/

/-- Structured view of an APNs response: HTTP status and the `reason` field
of the parsed JSON body (`none` when the body fails to parse or lacks it,
matching `res.json().catch(() => ({}))`). -/
structure ApnsResp where
  status : Nat
  reason : Option String
deriving DecidableEq, Repr

/-- apns.ts `sendApns` for one iOS device. -/
def sendApns (credRes : Except String String) (fetchRes : Except String ApnsResp)
    (pageSize : Nat) (store : KVStore) (deviceToken : String) :
    Except String (PushResult × KVStore) :=
  match credRes with
  | .error e => .error e
  | .ok _jwt =>
    match fetchRes with
    | .error e =>
      .ok ({ platform := "ios", status := .failed, reason := some e }, store)
    | .ok res =>
      if 200 ≤ res.status ∧ res.status ≤ 299 then
        .ok ({ platform := "ios", status := .sent, reason := none }, store)
      else if res.status = 410 then
        .ok ({ platform := "ios", status := .removed,
               reason := some (res.reason.getD "Unregistered") },
             (removeDeviceGlobally pageSize store deviceToken).2)
      else
        .ok ({ platform := "ios", status := .failed,
               reason := some (res.reason.getD ("HTTP " ++ toString res.status)) },
             store)

/-- Structured view of an FCM v1 response: HTTP status and the
`error.status` / `error.message` fields of the parsed JSON body (`none`
models absence or an unparseable body, for which the source substitutes
`{}`). -/
structure FcmResp where
  status : Nat
  errStatus : Option String
  errMessage : Option String
deriving DecidableEq, Repr

/-- fcm.ts `sendFcm` for one Android device. -/
def sendFcm (credRes : Except String String) (fetchRes : Except String FcmResp)
    (pageSize : Nat) (store : KVStore) (deviceToken : String) :
    Except String (PushResult × KVStore) :=
  match credRes with
  | .error e => .error e
  | .ok _accessToken =>
    match fetchRes with
    | .error e =>
      .ok ({ platform := "android", status := .failed, reason := some e }, store)
    | .ok res =>
      if 200 ≤ res.status ∧ res.status ≤ 299 then
        .ok ({ platform := "android", status := .sent, reason := none }, store)
      else
        let errStatus := res.errStatus.getD ""
        if errStatus = "UNREGISTERED" ∨ errStatus = "NOT_FOUND" then
          .ok ({ platform := "android", status := .removed, reason := some errStatus },
               (removeDeviceGlobally pageSize store deviceToken).2)
        else
          .ok ({ platform := "android", status := .failed,
                 reason := some (res.errMessage.getD ("HTTP " ++ toString res.status)) },
               store)

/-! ## Dispatch (router.ts `handlePush`) -/

/-- `Promise.all` over the already-mapped send promises: all results in input
order, or the error of a rejected send. -/
def collectAll : List (Except String PushResult) → Except String (List PushResult)
  | [] => .ok []
  | .error e :: _ => .error e
  | .ok r :: rest => (collectAll rest).map (fun rs => r :: rs)

/-- Per-device oracles for a dispatch: the credential-getter outcome and the
upstream fetch outcome each send observes, indexed by device token. -/
structure SendOracles where
  apnsCred : String → Except String String
  apnsFetch : String → Except String ApnsResp
  fcmCred : String → Except String String
  fcmFetch : String → Except String FcmResp

/-- The per-device branch of `handlePush`: select the adapter by the stored
platform tag.  Each send starts from the dispatch-time device store `store`;
only the `PushResult` component is collected into the response. -/
def routeSend (o : SendOracles) (pageSize : Nat) (store : KVStore)
    (d : DeviceRegistration) : Except String PushResult :=
  match d.platform with
  | .ios =>
    (sendApns (o.apnsCred d.device_token) (o.apnsFetch d.device_token)
      pageSize store d.device_token).map Prod.fst
  | .android =>
    (sendFcm (o.fcmCred d.device_token) (o.fcmFetch d.device_token)
      pageSize store d.device_token).map Prod.fst

/-- router.ts `handlePush`, dispatch core: read the tenant's devices; when
none are registered return the empty result list at once (no send is even
constructed), otherwise fan out `send` over every device and await all. -/
def handlePush (s : KVStore) (relayToken : String)
    (send : DeviceRegistration → Except String PushResult) :
    Except String (List PushResult) :=
  let devices := getDevices s relayToken
  if devices.length = 0 then .ok []
  else collectAll (devices.map send)

/-! ## Registry operation sequences (for the isolation invariant) -/

/-- One registry mutation issued through the routing layer: `/register`
calls `addDevice`, `DELETE /register` calls `removeDevice`. -/
inductive RegOp where
  | add (relayToken : String) (device : DeviceRegistration)
  | remove (relayToken : String) (deviceToken : String)
deriving DecidableEq, Repr

/-- The tenant a registry operation is keyed by. -/
def RegOp.tenant : RegOp → String
  | .add rt _ => rt
  | .remove rt _ => rt

/-- Apply one registry operation to the device store. -/
def applyOp (s : KVStore) : RegOp → KVStore
  | .add rt d => addDevice s rt d
  | .remove rt tok => (removeDevice s rt tok).2

/-- Apply a sequence of registry operations, oldest first. -/
def applyOps (s : KVStore) (ops : List RegOp) : KVStore :=
  ops.foldl applyOp s

/-! ## Basic facts about keys -/

theorem key_drop (t : String) : (key t).drop KEY_STEM.length = t := by
  apply String.ext
  simp only [key]
  rw [String.data_drop, String.data_append,
    show KEY_STEM.length = KEY_STEM.data.length from rfl, List.drop_left]

theorem key_inj {t₁ t₂ : String} (h : key t₁ = key t₂) : t₁ = t₂ := by
  have h₁ := key_drop t₁
  rw [h, key_drop] at h₁
  exact h₁.symm

theorem inStem_key (t : String) : inStem (key t) = true := by
  simp only [inStem, beq_iff_eq, key]
  apply String.ext
  rw [String.data_take, String.data_append,
    show KEY_STEM.length = KEY_STEM.data.length from rfl, List.take_left]

theorem key_of_inStem {k : String} (h : inStem k = true) :
    key (k.drop KEY_STEM.length) = k := by
  simp only [inStem, beq_iff_eq] at h
  have hd : KEY_STEM.data = List.take KEY_STEM.length k.data := by
    rw [← String.data_take, h]
  apply String.ext
  simp only [key]
  rw [String.data_append, String.data_drop, hd, List.take_append_drop]

/-! ## Generic association-list lemmas -/

theorem find?_update_self {α : Type _} (l : List (String × α)) (k : String) (v : α)
    (h : l.any (fun e => e.1 == k) = true) :
    (l.map (fun e => if e.1 == k then (k, v) else e)).find? (fun e => e.1 == k)
      = some (k, v) := by
  induction l with
  | nil => simp at h
  | cons e l ih =>
    rcases Bool.eq_false_or_eq_true (e.1 == k) with he | he
    · rw [List.map_cons, if_pos he, List.find?_cons_of_pos]
      simp
    · rw [List.map_cons, if_neg (by simp [he]),
        List.find?_cons_of_neg _ (by simp [he])]
      exact ih (by simpa [he] using h)

theorem find?_update_other {α : Type _} (l : List (String × α)) {k k' : String} (v : α)
    (h : k' ≠ k) :
    (l.map (fun e => if e.1 == k then (k, v) else e)).find? (fun e => e.1 == k')
      = l.find? (fun e => e.1 == k') := by
  induction l with
  | nil => rfl
  | cons e l ih =>
    rcases Bool.eq_false_or_eq_true (e.1 == k) with he | he
    · have h1 : (e.1 == k') = false := by
        rw [beq_iff_eq.mp he]
        exact beq_eq_false_iff_ne.mpr (fun hh => h hh.symm)
      have h2 : ((k : String) == k') = false :=
        beq_eq_false_iff_ne.mpr (fun hh => h hh.symm)
      rw [List.map_cons, if_pos he, List.find?_cons_of_neg _ (by simp [h2]),
        List.find?_cons_of_neg _ (by simp [h1])]
      exact ih
    · rw [List.map_cons, if_neg (by simp [he])]
      rcases Bool.eq_false_or_eq_true (e.1 == k') with he' | he'
      · rw [@List.find?_cons_of_pos _ (fun e => e.1 == k') e _ he',
          @List.find?_cons_of_pos _ (fun e => e.1 == k') e _ he']
      · rw [List.find?_cons_of_neg _ (by simp [he']),
          List.find?_cons_of_neg _ (by simp [he'])]
        exact ih

theorem find?_filterOut_self {α : Type _} (l : List (String × α)) (k : String) :
    (l.filter (fun e => !(e.1 == k))).find? (fun e => e.1 == k) = none := by
  rw [List.find?_eq_none]
  intro e he
  have := List.of_mem_filter he
  simp only [Bool.not_eq_true'] at this
  simp [this]

theorem find?_filterOut_other {α : Type _} (l : List (String × α)) {k k' : String}
    (h : k' ≠ k) :
    (l.filter (fun e => !(e.1 == k))).find? (fun e => e.1 == k')
      = l.find? (fun e => e.1 == k') := by
  induction l with
  | nil => rfl
  | cons e l ih =>
    rcases Bool.eq_false_or_eq_true (e.1 == k) with he | he
    · have h1 : (e.1 == k') = false := by
        rw [beq_iff_eq.mp he]
        exact beq_eq_false_iff_ne.mpr (fun hh => h hh.symm)
      rw [List.filter_cons, if_neg (by simp [he]),
        List.find?_cons_of_neg _ (by simp [h1])]
      exact ih
    · rw [List.filter_cons, if_pos (by simp [he])]
      rcases Bool.eq_false_or_eq_true (e.1 == k') with he' | he'
      · rw [@List.find?_cons_of_pos _ (fun e => e.1 == k') e _ he',
          @List.find?_cons_of_pos _ (fun e => e.1 == k') e _ he']
      · rw [List.find?_cons_of_neg _ (by simp [he']),
          List.find?_cons_of_neg _ (by simp [he'])]
        exact ih

theorem map_fst_update {α : Type _} (l : List (String × α)) (k : String) (v : α) :
    (l.map (fun e => if e.1 == k then (k, v) else e)).map Prod.fst
      = l.map Prod.fst := by
  rw [List.map_map]
  apply List.map_congr_left
  intro e _
  simp only [Function.comp_apply]
  rcases Bool.eq_false_or_eq_true (e.1 == k) with he | he
  · rw [if_pos he]
    exact (beq_iff_eq.mp he).symm
  · rw [if_neg (by simp [he] : ¬ (e.1 == k) = true)]

theorem map_fst_filterOut {α : Type _} (l : List (String × α)) (k : String) :
    (l.filter (fun e => !(e.1 == k))).map Prod.fst
      = (l.map Prod.fst).filter (fun x => !(x == k)) := by
  induction l with
  | nil => rfl
  | cons e l ih =>
    rcases Bool.eq_false_or_eq_true (e.1 == k) with he | he
    · rw [List.filter_cons, if_neg (by simp [he]), List.map_cons, List.filter_cons,
        if_neg (by simp [he])]
      exact ih
    · rw [List.filter_cons, if_pos (by simp [he]), List.map_cons, List.map_cons,
        List.filter_cons, if_pos (by simp [he])]
      rw [ih]

/-! ## Basic facts about the device store -/

theorem kvGet_kvPut_same (s : KVStore) (k : String) (v : List DeviceRegistration) :
    kvGet (kvPut s k v) k = some v := by
  rcases Bool.eq_false_or_eq_true (s.entries.any (fun e => e.1 == k)) with hany | hany
  · rw [kvPut, if_pos hany]
    simp only [kvGet]
    rw [find?_update_self _ _ _ hany]
    rfl
  · rw [kvPut, if_neg (by simp [hany])]
    simp only [kvGet]
    have hn : s.entries.find? (fun e => e.1 == k) = none := by
      rw [List.find?_eq_none]
      exact List.any_eq_false.mp hany
    rw [List.find?_append, hn, Option.none_or, List.find?_cons_of_pos _ (by simp)]
    rfl

theorem kvGet_kvPut_other (s : KVStore) {k k' : String} (v : List DeviceRegistration)
    (h : k' ≠ k) : kvGet (kvPut s k v) k' = kvGet s k' := by
  rcases Bool.eq_false_or_eq_true (s.entries.any (fun e => e.1 == k)) with hany | hany
  · rw [kvPut, if_pos hany]
    simp only [kvGet]
    rw [find?_update_other _ _ h]
  · rw [kvPut, if_neg (by simp [hany])]
    simp only [kvGet]
    rw [List.find?_append, List.find?_cons_of_neg _
      (by simp [beq_eq_false_iff_ne.mpr (fun hh => h hh.symm)]), List.find?_nil,
      Option.or_none]

theorem kvGet_kvDelete_same (s : KVStore) (k : String) :
    kvGet (kvDelete s k) k = none := by
  simp only [kvGet, kvDelete]
  rw [find?_filterOut_self]
  rfl

theorem kvGet_kvDelete_other (s : KVStore) {k k' : String} (h : k' ≠ k) :
    kvGet (kvDelete s k) k' = kvGet s k' := by
  simp only [kvGet, kvDelete]
  rw [find?_filterOut_other _ h]

/-- The list-level update `addDevice` performs: replace the first record with
the same token in place, else append. -/
def updatedList (l : List DeviceRegistration) (d : DeviceRegistration) :
    List DeviceRegistration :=
  let idx := l.findIdx (fun x => x.device_token == d.device_token)
  if idx < l.length then l.set idx d else l ++ [d]

theorem addDevice_eq_put (s : KVStore) (t : String) (d : DeviceRegistration) :
    addDevice s t d = kvPut s (key t) (updatedList (getDevices s t) d) := rfl

theorem getDevices_addDevice_same (s : KVStore) (t : String) (d : DeviceRegistration) :
    getDevices (addDevice s t d) t = updatedList (getDevices s t) d := by
  rw [addDevice_eq_put]
  simp only [getDevices]
  rw [kvGet_kvPut_same]
  rfl

theorem updatedList_cons_pos {a d : DeviceRegistration} (l : List DeviceRegistration)
    (h : (a.device_token == d.device_token) = true) :
    updatedList (a :: l) d = d :: l := by
  simp only [updatedList, List.findIdx_cons, h, cond_true]
  rw [if_pos (by simp)]
  rfl

theorem updatedList_cons_neg {a d : DeviceRegistration} (l : List DeviceRegistration)
    (h : (a.device_token == d.device_token) = false) :
    updatedList (a :: l) d = a :: updatedList l d := by
  simp only [updatedList, List.findIdx_cons, h, cond_false]
  rcases Nat.lt_or_ge (l.findIdx (fun x => x.device_token == d.device_token)) l.length
    with hlt | hge
  · rw [if_pos (by simpa using Nat.succ_lt_succ hlt), if_pos hlt]
    rfl
  · rw [if_neg (by simpa using fun hh => Nat.not_lt_of_ge hge (Nat.lt_of_succ_lt_succ hh)),
      if_neg (Nat.not_lt_of_ge hge)]
    rfl

theorem filter_token_eq_nil {l : List DeviceRegistration} {τ : String}
    (h : ∀ x ∈ l, x.device_token ≠ τ) :
    l.filter (fun x => x.device_token == τ) = [] := by
  rw [List.filter_eq_nil_iff]
  intro x hx
  simp [h x hx]

theorem updatedList_filter_token {l : List DeviceRegistration}
    (hnd : (l.map DeviceRegistration.device_token).Nodup) (d : DeviceRegistration) :
    (updatedList l d).filter (fun x => x.device_token == d.device_token) = [d] := by
  induction l with
  | nil =>
    simp [updatedList]
  | cons a l ih =>
    rcases Bool.eq_false_or_eq_true (a.device_token == d.device_token) with ha | ha
    · rw [updatedList_cons_pos l ha, List.filter_cons, if_pos (by simp)]
      have hnotin : a.device_token ∉ l.map DeviceRegistration.device_token :=
        (List.nodup_cons.mp hnd).1
      have : ∀ x ∈ l, x.device_token ≠ d.device_token := by
        intro x hx hcontra
        exact hnotin (by
          rw [beq_iff_eq.mp ha, ← hcontra]
          exact List.mem_map_of_mem DeviceRegistration.device_token hx)
      rw [filter_token_eq_nil this]
    · rw [updatedList_cons_neg l ha, List.filter_cons, if_neg (by simp [ha])]
      exact ih (List.nodup_cons.mp hnd).2

theorem mem_token_updatedList {l : List DeviceRegistration} {d x : DeviceRegistration}
    (hx : x ∈ updatedList l d) : x ∈ l ∨ x = d := by
  simp only [updatedList] at hx
  split at hx
  · rcases List.mem_or_eq_of_mem_set hx with h | h
    · exact Or.inl h
    · exact Or.inr h
  · rcases List.mem_append.mp hx with h | h
    · exact Or.inl h
    · exact Or.inr (List.mem_singleton.mp h)

theorem updatedList_nodup {l : List DeviceRegistration}
    (hnd : (l.map DeviceRegistration.device_token).Nodup) (d : DeviceRegistration) :
    ((updatedList l d).map DeviceRegistration.device_token).Nodup := by
  induction l with
  | nil => simp [updatedList]
  | cons a l ih =>
    rcases Bool.eq_false_or_eq_true (a.device_token == d.device_token) with ha | ha
    · rw [updatedList_cons_pos l ha]
      rcases List.nodup_cons.mp hnd with ⟨hnotin, htail⟩
      rw [List.map_cons, List.nodup_cons]
      refine ⟨?_, htail⟩
      rw [← beq_iff_eq.mp ha]
      exact hnotin
    · rw [updatedList_cons_neg l ha]
      rcases List.nodup_cons.mp hnd with ⟨hnotin, htail⟩
      rw [List.map_cons, List.nodup_cons]
      refine ⟨?_, ih htail⟩
      intro hmem
      rcases List.mem_map.mp hmem with ⟨y, hy, hytok⟩
      rcases mem_token_updatedList hy with h | h
      · exact hnotin (hytok ▸ List.mem_map_of_mem DeviceRegistration.device_token h)
      · subst h
        exact (beq_eq_false_iff_ne.mp ha) hytok.symm

theorem updatedList_append_of_absent {l : List DeviceRegistration}
    {d : DeviceRegistration}
    (h : d.device_token ∉ l.map DeviceRegistration.device_token) :
    updatedList l d = l ++ [d] := by
  simp only [updatedList]
  rw [if_neg]
  intro hlt
  rcases List.findIdx_lt_length.mp hlt with ⟨x, hx, hpx⟩
  exact h (beq_iff_eq.mp hpx ▸ List.mem_map_of_mem DeviceRegistration.device_token hx)

/-- C5: registering the same `device_token` twice under one tenant leaves
exactly one stored record with that token, namely the second registration
(most recent `registered_at`/`bundle_id`); registering a token not yet
present appends the record without altering the others. -/
theorem C5_addDevice_dedup (s : KVStore) (t : String) (d₁ d₂ : DeviceRegistration)
    (hnd : ((getDevices s t).map DeviceRegistration.device_token).Nodup)
    (htok : d₁.device_token = d₂.device_token) :
    ((getDevices (addDevice (addDevice s t d₁) t d₂) t).filter
        (fun x => x.device_token == d₂.device_token) = [d₂])
    ∧ (∀ d : DeviceRegistration,
        d.device_token ∉ (getDevices s t).map DeviceRegistration.device_token →
        getDevices (addDevice s t d) t = getDevices s t ++ [d]) := by
  constructor
  · rw [getDevices_addDevice_same, getDevices_addDevice_same]
    exact updatedList_filter_token (updatedList_nodup hnd d₁) d₂
  · intro d hd
    rw [getDevices_addDevice_same]
    exact updatedList_append_of_absent hd

/-! ## removeDevice: result and frame lemmas -/

/-- The record filter `removeDevice` applies. -/
def dropToken (tok : String) (l : List DeviceRegistration) : List DeviceRegistration :=
  l.filter (fun d => !(d.device_token == tok))

theorem removeDevice_of_absent {s : KVStore} {t tok : String}
    (h : ∀ d ∈ getDevices s t, d.device_token ≠ tok) :
    removeDevice s t tok = (false, s) := by
  have hfil : dropToken tok (getDevices s t) = getDevices s t := by
    rw [dropToken, List.filter_eq_self]
    intro d hd
    simp [h d hd]
  simp only [removeDevice]
  rw [if_pos]
  show (dropToken tok (getDevices s t)).length = (getDevices s t).length
  rw [hfil]

theorem dropToken_def (tok : String) (l : List DeviceRegistration) :
    l.filter (fun d => !(d.device_token == tok)) = dropToken tok l := rfl

theorem getDevices_removeDevice_same (s : KVStore) (t tok : String) :
    getDevices (removeDevice s t tok).2 t =
      (if (dropToken tok (getDevices s t)).length = (getDevices s t).length
       then getDevices s t
       else dropToken tok (getDevices s t)) := by
  by_cases h : (dropToken tok (getDevices s t)).length = (getDevices s t).length
  · rw [if_pos h]
    simp only [removeDevice, dropToken_def]
    rw [if_pos h]
  · rw [if_neg h]
    simp only [removeDevice, dropToken_def]
    rw [if_neg h]
    by_cases h0 : (dropToken tok (getDevices s t)).length = 0
    · rw [if_pos h0]
      show (kvGet (kvDelete s (key t)) (key t)).getD [] = dropToken tok (getDevices s t)
      rw [kvGet_kvDelete_same]
      exact (List.length_eq_zero.mp h0).symm
    · rw [if_neg h0]
      show (kvGet (kvPut s (key t) (dropToken tok (getDevices s t))) (key t)).getD []
        = dropToken tok (getDevices s t)
      rw [kvGet_kvPut_same]
      rfl

theorem kvGet_removeDevice_other (s : KVStore) (rt tok : String) {k : String}
    (h : k ≠ key rt) :
    kvGet (removeDevice s rt tok).2 k = kvGet s k := by
  simp only [removeDevice]
  split
  · rfl
  · split
    · exact kvGet_kvDelete_other s h
    · exact kvGet_kvPut_other s _ h

/-- C6: removing an unknown token returns `false` and leaves the store
untouched; removing the last remaining device deletes the tenant's storage
key entirely, so the key is absent and a later read yields `[]`. -/
theorem C6_removeDevice (s : KVStore) (t : String) (tok : String) :
    ((∀ d ∈ getDevices s t, d.device_token ≠ tok) →
      removeDevice s t tok = (false, s))
    ∧ (∀ d : DeviceRegistration, getDevices s t = [d] → d.device_token = tok →
      (removeDevice s t tok).1 = true
      ∧ kvGet (removeDevice s t tok).2 (key t) = none
      ∧ getDevices (removeDevice s t tok).2 t = []) := by
  constructor
  · exact removeDevice_of_absent
  · intro d hone hd
    have hfil : dropToken tok (getDevices s t) = [] := by
      rw [hone, dropToken, List.filter_cons, if_neg (by simp [hd])]
      rfl
    have hlen : ¬ (dropToken tok (getDevices s t)).length = (getDevices s t).length := by
      rw [hfil, hone]
      simp
    have hres : removeDevice s t tok = (true, kvDelete s (key t)) := by
      simp only [removeDevice, dropToken_def]
      rw [if_neg hlen, if_pos]
      rw [hfil]
      rfl
    refine ⟨by rw [hres], by rw [hres]; exact kvGet_kvDelete_same s (key t), ?_⟩
    rw [hres]
    simp only [getDevices]
    rw [kvGet_kvDelete_same]
    rfl

/-! ## Tenant isolation -/

theorem kvGet_addDevice_other (s : KVStore) (rt : String) (d : DeviceRegistration)
    {k : String} (h : k ≠ key rt) :
    kvGet (addDevice s rt d) k = kvGet s k := by
  rw [addDevice_eq_put]
  exact kvGet_kvPut_other s _ h

theorem getDevices_applyOp_other {s : KVStore} {op : RegOp} {t : String}
    (h : op.tenant ≠ t) :
    getDevices (applyOp s op) t = getDevices s t := by
  cases op with
  | add rt d =>
    simp only [applyOp, getDevices]
    rw [kvGet_addDevice_other]
    intro hk
    exact h (key_inj hk).symm
  | remove rt tok =>
    simp only [applyOp, getDevices]
    rw [kvGet_removeDevice_other]
    intro hk
    exact h (key_inj hk).symm

theorem getDevices_applyOp_same {s s' : KVStore} {op : RegOp}
    (h : getDevices s op.tenant = getDevices s' op.tenant) :
    getDevices (applyOp s op) op.tenant = getDevices (applyOp s' op) op.tenant := by
  cases op with
  | add rt d =>
    simp only [applyOp, RegOp.tenant] at h ⊢
    rw [getDevices_addDevice_same, getDevices_addDevice_same, h]
  | remove rt tok =>
    simp only [applyOp, RegOp.tenant] at h ⊢
    rw [getDevices_removeDevice_same, getDevices_removeDevice_same, h]

theorem applyOps_cons (s : KVStore) (op : RegOp) (ops : List RegOp) :
    applyOps s (op :: ops) = applyOps (applyOp s op) ops := rfl

theorem getDevices_applyOps_congr {ops : List RegOp} {t : String}
    (hall : ∀ op ∈ ops, op.tenant = t) :
    ∀ {s s' : KVStore}, getDevices s t = getDevices s' t →
      getDevices (applyOps s ops) t = getDevices (applyOps s' ops) t := by
  induction ops with
  | nil => intro s s' h; exact h
  | cons op ops ih =>
    intro s s' h
    rw [applyOps_cons, applyOps_cons]
    have ht : op.tenant = t := hall op (List.mem_cons_self _ _)
    refine ih (fun o ho => hall o (List.mem_cons_of_mem _ ho)) ?_
    rw [← ht] at h ⊢
    exact getDevices_applyOp_same h

theorem getDevices_applyOps_frame {ops : List RegOp} {t : String}
    (h : ∀ op ∈ ops, op.tenant ≠ t) :
    ∀ s, getDevices (applyOps s ops) t = getDevices s t := by
  induction ops with
  | nil => intro s; rfl
  | cons op ops ih =>
    intro s
    rw [applyOps_cons, ih (fun o ho => h o (List.mem_cons_of_mem _ ho)),
      getDevices_applyOp_other (h op (List.mem_cons_self _ _))]

theorem getDevices_applyOps_filter (ops : List RegOp) (t : String) :
    ∀ s, getDevices (applyOps s ops) t
      = getDevices (applyOps s (ops.filter (fun op => op.tenant == t))) t := by
  induction ops with
  | nil => intro s; rfl
  | cons op ops ih =>
    intro s
    rcases Bool.eq_false_or_eq_true (op.tenant == t) with hop | hop
    · rw [applyOps_cons, List.filter_cons, if_pos (by simp [hop]), applyOps_cons]
      exact ih (applyOp s op)
    · rw [applyOps_cons, ih, List.filter_cons, if_neg (by simp [hop])]
      refine getDevices_applyOps_congr ?_ ?_
      · intro o ho
        exact beq_iff_eq.mp (List.mem_filter.mp ho).2
      · exact getDevices_applyOp_other (beq_eq_false_iff_ne.mp hop)

/-- C4: registry operations on one tenant never affect what `getDevices`
returns for another — the devices visible under tenant `t` after any
operation sequence depend only on the operations keyed by `t`, and a
sequence touching only other tenants leaves `getDevices t` unchanged. -/
theorem C4_tenant_isolation (ops : List RegOp) (s : KVStore) (t : String) :
    getDevices (applyOps s ops) t
      = getDevices (applyOps s (ops.filter (fun op => op.tenant == t))) t
    ∧ ((∀ op ∈ ops, op.tenant ≠ t) → getDevices (applyOps s ops) t = getDevices s t) := by
  exact ⟨getDevices_applyOps_filter ops t s, fun h => getDevices_applyOps_frame h s⟩

/-! ## Dispatch on an empty registry -/

/-- C9: when a tenant has no registered devices, `handlePush` returns the
empty result sequence at once — uniformly in the send function, so no
upstream call and no credential acquisition can occur. -/
theorem C9_dispatch_empty (s : KVStore) (t : String) (h : getDevices s t = []) :
    ∀ send, handlePush s t send = .ok [] := by
  intro send
  simp only [handlePush, h]
  rfl

theorem C9_dispatch_empty_witness :
    handlePush ⟨[]⟩ "bridge-1" (fun _ => .ok ⟨"ios", .sent, none⟩) = .ok [] :=
  C9_dispatch_empty ⟨[]⟩ "bridge-1" rfl _

/-! ## Credential cache behaviour -/

/-- C7: a cached, non-expired credential is returned verbatim with the cache
untouched, independently of the generation oracles (so generation is never
invoked); on a cold or expired cache the getter generates, stores under the
protocol's key with the configured TTL, and returns the fresh value. -/
theorem C7_credential_cache (now : Nat) (s : CredStore) :
    (∀ c, credGet s now APNS_JWT_KV_KEY = some c →
      ∀ ki jwt, getApnsJwt now s ki jwt = (.ok c, s))
    ∧ (credGet s now APNS_JWT_KV_KEY = none →
      ∀ jwt, getApnsJwt now s (.ok ()) jwt
        = (.ok jwt, credPut s now APNS_JWT_KV_KEY jwt JWT_TTL_SECONDS))
    ∧ (∀ c, credGet s now FCM_TOKEN_KV_KEY = some c →
      ∀ ki jwt ex, getFcmAccessToken now s ki jwt ex = (.ok c, s))
    ∧ (credGet s now FCM_TOKEN_KV_KEY = none →
      ∀ jwt (resp : ExchangeResp), 200 ≤ resp.status → resp.status ≤ 299 →
        getFcmAccessToken now s (.ok ()) jwt (.ok resp)
          = (.ok resp.access_token,
            credPut s now FCM_TOKEN_KV_KEY resp.access_token TOKEN_TTL_SECONDS)) := by
  refine ⟨?_, ?_, ?_, ?_⟩
  · intro c hc ki jwt
    simp only [getApnsJwt, hc]
  · intro hc jwt
    simp only [getApnsJwt, hc, generateApnsJwt, Except.map]
  · intro c hc ki jwt ex
    simp only [getFcmAccessToken, hc]
  · intro hc jwt resp h1 h2
    simp only [getFcmAccessToken, hc, generateServiceAccountJwt, Except.map,
      Except.bind, exchangeForAccessToken]
    rw [if_pos ⟨h1, h2⟩]

theorem C7_credential_cache_witness :
    getApnsJwt 5 ⟨[("apns:jwt", ⟨"J", 10⟩)]⟩ (.error "bad key") "sig"
      = (.ok "J", ⟨[("apns:jwt", ⟨"J", 10⟩)]⟩)
    ∧ getFcmAccessToken 5 ⟨[]⟩ (.ok ()) "assert" (.ok ⟨200, "", "tok"⟩)
      = (.ok "tok", credPut ⟨[]⟩ 5 FCM_TOKEN_KV_KEY "tok" TOKEN_TTL_SECONDS) :=
  ⟨(C7_credential_cache 5 ⟨[("apns:jwt", ⟨"J", 10⟩)]⟩).1 "J" rfl (.error "bad key") "sig",
   (C7_credential_cache 5 ⟨[]⟩).2.2.2 rfl "assert" ⟨200, "", "tok"⟩
     (by decide) (by decide)⟩

/-- C8: on a cold cache, a malformed service-account key makes credential
acquisition fail with the key-import error, and a non-success response from
the token endpoint makes it fail with a message carrying the endpoint's
status and body; in both cases nothing is stored — the cache comes back
unchanged. -/
theorem C8_credential_error_no_cache (now : Nat) (s : CredStore)
    (hcold : credGet s now FCM_TOKEN_KV_KEY = none) :
    (∀ m jwt ex, getFcmAccessToken now s (.error m) jwt ex = (.error m, s))
    ∧ (∀ jwt (resp : ExchangeResp), ¬(200 ≤ resp.status ∧ resp.status ≤ 299) →
      getFcmAccessToken now s (.ok ()) jwt (.ok resp)
        = (.error ("OAuth2 token exchange failed: "
            ++ toString resp.status ++ " " ++ resp.body), s)) := by
  constructor
  · intro m jwt ex
    simp only [getFcmAccessToken, hcold, generateServiceAccountJwt, Except.map,
      Except.bind]
  · intro jwt resp h
    simp only [getFcmAccessToken, hcold, generateServiceAccountJwt, Except.map,
      Except.bind, exchangeForAccessToken]
    rw [if_neg h]

theorem C8_credential_error_no_cache_witness :
    getFcmAccessToken 0 ⟨[]⟩ (.error "bad key") "assert" (.ok ⟨200, "", "tok"⟩)
      = (.error "bad key", ⟨[]⟩)
    ∧ getFcmAccessToken 0 ⟨[]⟩ (.ok ()) "assert" (.ok ⟨500, "oops", ""⟩)
      = (.error "OAuth2 token exchange failed: 500 oops", ⟨[]⟩) :=
  ⟨(C8_credential_error_no_cache 0 ⟨[]⟩ rfl).1 "bad key" "assert" (.ok ⟨200, "", "tok"⟩),
   (C8_credential_error_no_cache 0 ⟨[]⟩ rfl).2 "assert" ⟨500, "oops", ""⟩ (by decide)⟩

/-! ## Send adapters: exception behaviour and failure conversion -/

/-- C1 counterexample: with a cold credential cache and failing credential
generation, the credential getter's exception propagates out of `sendApns`
and `sendFcm` (the getter runs before the `try` block), and through
`Promise.all` it aborts a dispatch over a registered device instead of
producing a per-device `failed` result. -/
theorem C1_counterexample :
    sendApns (.error "CredentialError") (.ok ⟨200, none⟩) 1 ⟨[]⟩ "tok"
      = .error "CredentialError"
    ∧ sendFcm (.error "CredentialError") (.ok ⟨200, none, none⟩) 1 ⟨[]⟩ "tok"
      = .error "CredentialError"
    ∧ handlePush ⟨[(key "bridge-1", [⟨.ios, "tok", none, "2025-01-01T00:00:00Z"⟩])]⟩
        "bridge-1"
        (routeSend ⟨fun _ => .error "CredentialError", fun _ => .ok ⟨200, none⟩,
          fun _ => .ok "acc", fun _ => .ok ⟨200, none, none⟩⟩ 1 ⟨[]⟩)
      = .error "CredentialError" :=
  ⟨rfl, rfl, rfl⟩

/-- C1 (amended): every failure mode arising after credential acquisition —
a rejected fetch, a non-success non-purge HTTP response — is converted into
a `PushResult` with status `failed` and a human-readable reason, and a send
with an acquired credential never raises; but a credential-acquisition
failure propagates as an exception out of the individual send. -/
theorem C1_amended (credMsg jwt acc : String) (ps : Nat) (store : KVStore)
    (tok : String) :
    (∀ fetch, sendApns (.error credMsg) fetch ps store tok = .error credMsg)
    ∧ (∀ fetch, sendFcm (.error credMsg) fetch ps store tok = .error credMsg)
    ∧ (∀ fetch, ∃ pr st, sendApns (.ok jwt) fetch ps store tok = .ok (pr, st))
    ∧ (∀ fetch, ∃ pr st, sendFcm (.ok acc) fetch ps store tok = .ok (pr, st))
    ∧ (∀ e, sendApns (.ok jwt) (.error e) ps store tok
        = .ok (⟨"ios", .failed, some e⟩, store))
    ∧ (∀ e, sendFcm (.ok acc) (.error e) ps store tok
        = .ok (⟨"android", .failed, some e⟩, store))
    ∧ (∀ resp : ApnsResp, ¬(200 ≤ resp.status ∧ resp.status ≤ 299) →
        resp.status ≠ 410 →
        sendApns (.ok jwt) (.ok resp) ps store tok
          = .ok (⟨"ios", .failed,
              some (resp.reason.getD ("HTTP " ++ toString resp.status))⟩, store))
    ∧ (∀ resp : FcmResp, ¬(200 ≤ resp.status ∧ resp.status ≤ 299) →
        resp.errStatus.getD "" ≠ "UNREGISTERED" →
        resp.errStatus.getD "" ≠ "NOT_FOUND" →
        sendFcm (.ok acc) (.ok resp) ps store tok
          = .ok (⟨"android", .failed,
              some (resp.errMessage.getD ("HTTP " ++ toString resp.status))⟩, store)) := by
  refine ⟨fun _ => rfl, fun _ => rfl, ?_, ?_, fun _ => rfl, fun _ => rfl, ?_, ?_⟩
  · intro fetch
    cases fetch with
    | error e => exact ⟨_, _, rfl⟩
    | ok resp =>
      simp only [sendApns]
      by_cases h1 : 200 ≤ resp.status ∧ resp.status ≤ 299
      · rw [if_pos h1]; exact ⟨_, _, rfl⟩
      · rw [if_neg h1]
        by_cases h2 : resp.status = 410
        · rw [if_pos h2]; exact ⟨_, _, rfl⟩
        · rw [if_neg h2]; exact ⟨_, _, rfl⟩
  · intro fetch
    cases fetch with
    | error e => exact ⟨_, _, rfl⟩
    | ok resp =>
      simp only [sendFcm]
      by_cases h1 : 200 ≤ resp.status ∧ resp.status ≤ 299
      · rw [if_pos h1]; exact ⟨_, _, rfl⟩
      · rw [if_neg h1]
        by_cases h2 : resp.errStatus.getD "" = "UNREGISTERED"
            ∨ resp.errStatus.getD "" = "NOT_FOUND"
        · rw [if_pos h2]; exact ⟨_, _, rfl⟩
        · rw [if_neg h2]; exact ⟨_, _, rfl⟩
  · intro resp h1 h2
    simp only [sendApns]
    rw [if_neg h1, if_neg h2]
  · intro resp h1 h2 h3
    simp only [sendFcm]
    rw [if_neg h1, if_neg (by simp [h2, h3])]

theorem C1_amended_witness :
    sendApns (.error "boom") (.ok ⟨200, none⟩) 1 ⟨[]⟩ "tok" = .error "boom"
    ∧ sendApns (.ok "jwt") (.ok ⟨500, none⟩) 1 ⟨[]⟩ "tok"
      = .ok (⟨"ios", .failed, some "HTTP 500"⟩, ⟨[]⟩) :=
  ⟨(C1_amended "boom" "jwt" "acc" 1 ⟨[]⟩ "tok").1 (.ok ⟨200, none⟩),
   by
    have h := (C1_amended "boom" "jwt" "acc" 1 ⟨[]⟩ "tok").2.2.2.2.2.2.1
      ⟨500, none⟩ (by decide) (by decide)
    simpa using h⟩

/-- C2: a permanent-invalidity signal — HTTP 410 from APNs, error status
`UNREGISTERED` or `NOT_FOUND` from FCM — makes the send purge the token via
`removeDeviceGlobally` and report status `removed` with the upstream
reason; every other response leaves the device store untouched and does not
report `removed`. -/
theorem C2_invalid_token_purge (jwt acc : String) (ps : Nat) (store : KVStore)
    (tok : String) :
    (∀ (resp : ApnsResp) (r : String), resp.status = 410 → resp.reason = some r →
      sendApns (.ok jwt) (.ok resp) ps store tok
        = .ok (⟨"ios", .removed, some r⟩, (removeDeviceGlobally ps store tok).2))
    ∧ (∀ resp : ApnsResp, resp.status ≠ 410 →
      ∃ pr, sendApns (.ok jwt) (.ok resp) ps store tok = .ok (pr, store)
        ∧ pr.status ≠ .removed)
    ∧ (∀ e, sendApns (.ok jwt) (.error e) ps store tok
        = .ok (⟨"ios", .failed, some e⟩, store))
    ∧ (∀ (resp : FcmResp) (stat : String), ¬(200 ≤ resp.status ∧ resp.status ≤ 299) →
      resp.errStatus = some stat → (stat = "UNREGISTERED" ∨ stat = "NOT_FOUND") →
      sendFcm (.ok acc) (.ok resp) ps store tok
        = .ok (⟨"android", .removed, some stat⟩, (removeDeviceGlobally ps store tok).2))
    ∧ (∀ resp : FcmResp,
        ((200 ≤ resp.status ∧ resp.status ≤ 299)
          ∨ (resp.errStatus.getD "" ≠ "UNREGISTERED"
              ∧ resp.errStatus.getD "" ≠ "NOT_FOUND")) →
      ∃ pr, sendFcm (.ok acc) (.ok resp) ps store tok = .ok (pr, store)
        ∧ pr.status ≠ .removed)
    ∧ (∀ e, sendFcm (.ok acc) (.error e) ps store tok
        = .ok (⟨"android", .failed, some e⟩, store)) := by
  refine ⟨?_, ?_, fun _ => rfl, ?_, ?_, fun _ => rfl⟩
  · intro resp r h410 hr
    simp only [sendApns, h410, hr]
    simp
  · intro resp h410
    simp only [sendApns]
    by_cases h1 : 200 ≤ resp.status ∧ resp.status ≤ 299
    · rw [if_pos h1]
      exact ⟨_, rfl, by decide⟩
    · rw [if_neg h1, if_neg h410]
      exact ⟨_, rfl, by simp⟩
  · intro resp stat h2xx hstat hperm
    simp only [sendFcm, hstat]
    rw [if_neg h2xx, if_pos (by simpa using hperm)]
    rfl
  · intro resp hother
    simp only [sendFcm]
    rcases hother with h2xx | ⟨hu, hn⟩
    · rw [if_pos h2xx]
      exact ⟨_, rfl, by decide⟩
    · by_cases h1 : 200 ≤ resp.status ∧ resp.status ≤ 299
      · rw [if_pos h1]
        exact ⟨_, rfl, by decide⟩
      · rw [if_neg h1, if_neg (by simp [hu, hn])]
        exact ⟨_, rfl, by simp⟩

theorem C2_invalid_token_purge_witness :
    sendApns (.ok "jwt") (.ok ⟨410, some "Unregistered"⟩) 1
        ⟨[(key "b", [⟨.ios, "tok", none, "T"⟩])]⟩ "tok"
      = .ok (⟨"ios", .removed, some "Unregistered"⟩,
          (removeDeviceGlobally 1 ⟨[(key "b", [⟨.ios, "tok", none, "T"⟩])]⟩ "tok").2)
    ∧ sendFcm (.ok "acc") (.ok ⟨404, some "UNREGISTERED", none⟩) 1 ⟨[]⟩ "tok"
      = .ok (⟨"android", .removed, some "UNREGISTERED"⟩,
          (removeDeviceGlobally 1 ⟨[]⟩ "tok").2) :=
  ⟨(C2_invalid_token_purge "jwt" "acc" 1 ⟨[(key "b", [⟨.ios, "tok", none, "T"⟩])]⟩
      "tok").1 ⟨410, some "Unregistered"⟩ "Unregistered" rfl rfl,
   (C2_invalid_token_purge "jwt" "acc" 1 ⟨[]⟩ "tok").2.2.2.1
      ⟨404, some "UNREGISTERED", none⟩ "UNREGISTERED" (by decide) rfl (Or.inl rfl)⟩

/-! ## Dispatch shape: one result per device, in order -/

theorem collectAll_ok_length {es : List (Except String PushResult)} :
    ∀ {rs : List PushResult}, collectAll es = .ok rs → rs.length = es.length := by
  induction es with
  | nil =>
    intro rs h
    simp only [collectAll, Except.ok.injEq] at h
    rw [← h]
    rfl
  | cons e es ih =>
    intro rs h
    cases e with
    | error m => simp [collectAll] at h
    | ok r =>
      simp only [collectAll] at h
      cases hc : collectAll es with
      | error m => rw [hc] at h; simp [Except.map] at h
      | ok rs' =>
        rw [hc] at h
        simp only [Except.map, Except.ok.injEq] at h
        rw [← h]
        simp [ih hc]

theorem collectAll_ok_get {es : List (Except String PushResult)} :
    ∀ {rs : List PushResult}, collectAll es = .ok rs →
      ∀ i, rs.get? i = (es.get? i).bind Except.toOption := by
  induction es with
  | nil =>
    intro rs h i
    simp only [collectAll, Except.ok.injEq] at h
    rw [← h]
    cases i <;> rfl
  | cons e es ih =>
    intro rs h i
    cases e with
    | error m => simp [collectAll] at h
    | ok r =>
      simp only [collectAll] at h
      cases hc : collectAll es with
      | error m => rw [hc] at h; simp [Except.map] at h
      | ok rs' =>
        rw [hc] at h
        simp only [Except.map, Except.ok.injEq] at h
        rw [← h]
        cases i with
        | zero => rfl
        | succ n => exact ih hc n

theorem sendApns_ok_platform {cred : Except String String}
    {fetch : Except String ApnsResp} {ps : Nat} {store : KVStore} {tok : String}
    {r : PushResult} {st : KVStore}
    (h : sendApns cred fetch ps store tok = .ok (r, st)) : r.platform = "ios" := by
  cases cred with
  | error e => simp [sendApns] at h
  | ok jwt =>
    cases fetch with
    | error e =>
      simp only [sendApns, Except.ok.injEq, Prod.mk.injEq] at h
      rw [← h.1]
    | ok resp =>
      simp only [sendApns] at h
      split at h
      · simp only [Except.ok.injEq, Prod.mk.injEq] at h
        rw [← h.1]
      · split at h
        · simp only [Except.ok.injEq, Prod.mk.injEq] at h
          rw [← h.1]
        · simp only [Except.ok.injEq, Prod.mk.injEq] at h
          rw [← h.1]

theorem sendFcm_ok_platform {cred : Except String String}
    {fetch : Except String FcmResp} {ps : Nat} {store : KVStore} {tok : String}
    {r : PushResult} {st : KVStore}
    (h : sendFcm cred fetch ps store tok = .ok (r, st)) : r.platform = "android" := by
  cases cred with
  | error e => simp [sendFcm] at h
  | ok acc =>
    cases fetch with
    | error e =>
      simp only [sendFcm, Except.ok.injEq, Prod.mk.injEq] at h
      rw [← h.1]
    | ok resp =>
      simp only [sendFcm] at h
      split at h
      · simp only [Except.ok.injEq, Prod.mk.injEq] at h
        rw [← h.1]
      · split at h
        · simp only [Except.ok.injEq, Prod.mk.injEq] at h
          rw [← h.1]
        · simp only [Except.ok.injEq, Prod.mk.injEq] at h
          rw [← h.1]

theorem routeSend_ok_platform {o : SendOracles} {ps : Nat} {store : KVStore}
    {d : DeviceRegistration} {r : PushResult}
    (h : routeSend o ps store d = .ok r) :
    (d.platform = .ios → r.platform = "ios")
    ∧ (d.platform = .android → r.platform = "android") := by
  cases hd : d.platform with
  | ios =>
    refine ⟨fun _ => ?_, fun hc => Platform.noConfusion hc⟩
    simp only [routeSend, hd] at h
    cases hs : sendApns (o.apnsCred d.device_token) (o.apnsFetch d.device_token)
        ps store d.device_token with
    | error e => rw [hs] at h; simp [Except.map] at h
    | ok pr =>
      rw [hs] at h
      simp only [Except.map, Except.ok.injEq] at h
      rw [← h]
      exact sendApns_ok_platform (show _ = Except.ok (pr.1, pr.2) by rw [hs])
  | android =>
    refine ⟨fun hc => Platform.noConfusion hc, fun _ => ?_⟩
    simp only [routeSend, hd] at h
    cases hs : sendFcm (o.fcmCred d.device_token) (o.fcmFetch d.device_token)
        ps store d.device_token with
    | error e => rw [hs] at h; simp [Except.map] at h
    | ok pr =>
      rw [hs] at h
      simp only [Except.map, Except.ok.injEq] at h
      rw [← h]
      exact sendFcm_ok_platform (show _ = Except.ok (pr.1, pr.2) by rw [hs])

/-- C10: on a non-empty device list, a resolving dispatch returns exactly one
result per stored device, positionally aligned with the stored sequence, and
each result's platform string matches the corresponding device's stored
platform tag. -/
theorem C10_dispatch_per_device (o : SendOracles) (ps : Nat) (store s : KVStore)
    (t : String) (rs : List PushResult)
    (hne : getDevices s t ≠ [])
    (h : handlePush s t (routeSend o ps store) = .ok rs) :
    rs.length = (getDevices s t).length
    ∧ (∀ i, rs.get? i = ((getDevices s t).get? i).bind
        (fun d => (routeSend o ps store d).toOption))
    ∧ (∀ i d r, (getDevices s t).get? i = some d → rs.get? i = some r →
        (d.platform = .ios → r.platform = "ios")
        ∧ (d.platform = .android → r.platform = "android")) := by
  simp only [handlePush] at h
  rw [if_neg (by simpa using hne)] at h
  have hget : ∀ i, rs.get? i = ((getDevices s t).get? i).bind
      (fun d => (routeSend o ps store d).toOption) := by
    intro i
    rw [collectAll_ok_get h i, List.get?_map]
    cases (getDevices s t).get? i <;> rfl
  refine ⟨?_, hget, ?_⟩
  · rw [collectAll_ok_length h, List.length_map]
  · intro i d r hd hr
    have := hget i
    rw [hr, hd] at this
    simp only [Option.bind_eq_bind, Option.some_bind] at this
    cases hsend : routeSend o ps store d with
    | error e => rw [hsend] at this; cases this
    | ok r' =>
      rw [hsend] at this
      simp only [Except.toOption, Option.some.injEq] at this
      rw [← this] at hsend
      exact routeSend_ok_platform hsend

theorem C10_dispatch_per_device_witness :
    handlePush ⟨[(key "b", [⟨.ios, "i1", none, "T"⟩, ⟨.android, "a1", none, "T"⟩])]⟩
        "b" (routeSend ⟨fun _ => .ok "jwt", fun _ => .ok ⟨200, none⟩,
          fun _ => .ok "acc", fun _ => .ok ⟨200, none, none⟩⟩ 1 ⟨[]⟩)
      = .ok [⟨"ios", .sent, none⟩, ⟨"android", .sent, none⟩]
    ∧ ([⟨"ios", .sent, none⟩, ⟨"android", .sent, none⟩] : List PushResult).length
      = (getDevices ⟨[(key "b", [⟨.ios, "i1", none, "T"⟩, ⟨.android, "a1", none, "T"⟩])]⟩
          "b").length :=
  ⟨rfl,
   (C10_dispatch_per_device ⟨fun _ => .ok "jwt", fun _ => .ok ⟨200, none⟩,
      fun _ => .ok "acc", fun _ => .ok ⟨200, none, none⟩⟩ 1 ⟨[]⟩
      ⟨[(key "b", [⟨.ios, "i1", none, "T"⟩, ⟨.android, "a1", none, "T"⟩])]⟩
      "b" [⟨"ios", .sent, none⟩, ⟨"android", .sent, none⟩]
      (by decide) rfl).1⟩

theorem C5_addDevice_dedup_witness :
    ((getDevices (addDevice (addDevice ⟨[]⟩ "b" ⟨.ios, "tok", none, "T1"⟩) "b"
        ⟨.ios, "tok", some "com.app", "T2"⟩) "b").filter
      (fun x => x.device_token == (⟨.ios, "tok", some "com.app", "T2"⟩
        : DeviceRegistration).device_token) = [⟨.ios, "tok", some "com.app", "T2"⟩])
    ∧ getDevices (addDevice ⟨[]⟩ "b" ⟨.ios, "tok", none, "T1"⟩) "b"
      = getDevices (⟨[]⟩ : KVStore) "b" ++ [⟨.ios, "tok", none, "T1"⟩] :=
  ⟨(C5_addDevice_dedup ⟨[]⟩ "b" ⟨.ios, "tok", none, "T1"⟩
      ⟨.ios, "tok", some "com.app", "T2"⟩ (by decide) rfl).1,
   (C5_addDevice_dedup ⟨[]⟩ "b" ⟨.ios, "tok", none, "T1"⟩
      ⟨.ios, "tok", some "com.app", "T2"⟩ (by decide) rfl).2
     ⟨.ios, "tok", none, "T1"⟩ (by decide)⟩

theorem C6_removeDevice_witness :
    removeDevice ⟨[(key "b", [⟨.ios, "tok", none, "T"⟩])]⟩ "b" "other"
      = (false, ⟨[(key "b", [⟨.ios, "tok", none, "T"⟩])]⟩)
    ∧ (removeDevice ⟨[(key "b", [⟨.ios, "tok", none, "T"⟩])]⟩ "b" "tok").1 = true
    ∧ kvGet (removeDevice ⟨[(key "b", [⟨.ios, "tok", none, "T"⟩])]⟩ "b" "tok").2
        (key "b") = none
    ∧ getDevices (removeDevice ⟨[(key "b", [⟨.ios, "tok", none, "T"⟩])]⟩ "b" "tok").2
        "b" = [] :=
  ⟨(C6_removeDevice ⟨[(key "b", [⟨.ios, "tok", none, "T"⟩])]⟩ "b" "other").1
      (by decide),
   (C6_removeDevice ⟨[(key "b", [⟨.ios, "tok", none, "T"⟩])]⟩ "b" "tok").2
      ⟨.ios, "tok", none, "T"⟩ (by decide) rfl⟩

theorem C4_tenant_isolation_witness :
    getDevices (applyOps ⟨[]⟩ [.add "tenant-one" ⟨.ios, "d", none, "T"⟩]) "tenant-two"
      = getDevices (applyOps ⟨[]⟩
          (([RegOp.add "tenant-one" ⟨.ios, "d", none, "T"⟩]).filter
            (fun op => op.tenant == "tenant-two"))) "tenant-two"
    ∧ getDevices (applyOps ⟨[]⟩ [.add "tenant-one" ⟨.ios, "d", none, "T"⟩]) "tenant-two"
      = getDevices (⟨[]⟩ : KVStore) "tenant-two" :=
  ⟨(C4_tenant_isolation [.add "tenant-one" ⟨.ios, "d", none, "T"⟩] ⟨[]⟩
      "tenant-two").1,
   (C4_tenant_isolation [.add "tenant-one" ⟨.ios, "d", none, "T"⟩] ⟨[]⟩
      "tenant-two").2 (by decide)⟩

/-! ## The global purge (C3): characterising one `removeDevice` step -/

/-- The key column of the device store. -/
def storeKeys (s : KVStore) : List String := s.entries.map Prod.fst

/-- The full (unpaginated) listing a scan position sees: keys in the
`devices:` namespace strictly after the cursor, lexicographically sorted. -/
def msort (s : KVStore) (cursor : Option String) : List String :=
  List.insertionSort (fun a b : String => a.data ≤ b.data)
    ((storeKeys s).filter (fun k => inStem k && afterCur cursor k))

theorem kvList_eq (s : KVStore) (ps : Nat) (cursor : Option String) :
    kvList s ps cursor =
      ⟨(msort s cursor).take ps, decide ((msort s cursor).length ≤ ps),
        ((msort s cursor).take ps).getLastD ""⟩ := rfl

/-- The effect of one `removeDevice` on the value stored under its key. -/
def purgeVal (tok : String) :
    Option (List DeviceRegistration) → Option (List DeviceRegistration)
  | none => none
  | some l =>
    if (dropToken tok l).length = l.length then some l
    else if (dropToken tok l).length = 0 then none
    else some (dropToken tok l)

/-- Does the entry under `k` hold a record with device token `tok`? -/
def hasTok (s : KVStore) (tok k : String) : Bool :=
  ((kvGet s k).getD []).any (fun d => d.device_token == tok)

theorem dropToken_length_eq_iff {tok : String} {l : List DeviceRegistration} :
    (dropToken tok l).length = l.length
      ↔ l.any (fun d => d.device_token == tok) = false := by
  constructor
  · intro h
    have heq : dropToken tok l = l := (List.filter_sublist l).eq_of_length h
    rw [List.any_eq_false]
    intro d hd
    have := List.filter_eq_self.mp heq d hd
    simpa using this
  · intro h
    rw [dropToken, List.filter_eq_self.mpr]
    intro d hd
    have := List.any_eq_false.mp h d hd
    simpa using this

theorem removeDevice_fst (s : KVStore) (rt tok : String) :
    (removeDevice s rt tok).1 = hasTok s tok (key rt) := by
  have hht : hasTok s tok (key rt)
      = (getDevices s rt).any (fun d => d.device_token == tok) := rfl
  rw [hht]
  simp only [removeDevice, dropToken_def]
  by_cases h : (dropToken tok (getDevices s rt)).length = (getDevices s rt).length
  · rw [if_pos h]
    exact (dropToken_length_eq_iff.mp h).symm
  · rw [if_neg h]
    have hany : (getDevices s rt).any (fun d => d.device_token == tok) = true := by
      rcases Bool.eq_false_or_eq_true
          ((getDevices s rt).any (fun d => d.device_token == tok)) with ht | hf
      · exact ht
      · exact absurd (dropToken_length_eq_iff.mpr hf) h
    rw [hany]
    by_cases h0 : (dropToken tok (getDevices s rt)).length = 0
    · rw [if_pos h0]
    · rw [if_neg h0]

theorem kvGet_removeDevice_key (s : KVStore) (rt tok : String) :
    kvGet (removeDevice s rt tok).2 (key rt) = purgeVal tok (kvGet s (key rt)) := by
  cases hv : kvGet s (key rt) with
  | none =>
    have hl : getDevices s rt = [] := by simp [getDevices, hv]
    have hres : removeDevice s rt tok = (false, s) := by
      simp only [removeDevice, dropToken_def, hl]
      rfl
    rw [hres]
    show kvGet s (key rt) = purgeVal tok none
    rw [hv]
    rfl
  | some l =>
    have hl : getDevices s rt = l := by simp [getDevices, hv]
    simp only [removeDevice, dropToken_def, hl, purgeVal]
    by_cases h : (dropToken tok l).length = l.length
    · rw [if_pos h, if_pos h]
      exact hv
    · rw [if_neg h, if_neg h]
      by_cases h0 : (dropToken tok l).length = 0
      · rw [if_pos h0, if_pos h0]
        exact kvGet_kvDelete_same s (key rt)
      · rw [if_neg h0, if_neg h0]
        exact kvGet_kvPut_same s (key rt) _

theorem any_key_of_kvGet_some {s : KVStore} {k : String}
    {l : List DeviceRegistration} (h : kvGet s k = some l) :
    s.entries.any (fun e => e.1 == k) = true := by
  simp only [kvGet, Option.map_eq_some'] at h
  rcases h with ⟨e, he, _⟩
  rw [List.any_eq_true]
  exact ⟨e, List.mem_of_find?_eq_some he,
    @List.find?_some _ (fun e => e.1 == k) e s.entries he⟩

theorem storeKeys_removeDevice (s : KVStore) (rt tok : String) :
    storeKeys (removeDevice s rt tok).2 = storeKeys s
    ∨ storeKeys (removeDevice s rt tok).2
        = (storeKeys s).filter (fun x => !(x == key rt)) := by
  simp only [removeDevice, dropToken_def]
  by_cases h : (dropToken tok (getDevices s rt)).length = (getDevices s rt).length
  · rw [if_pos h]
    exact Or.inl rfl
  · rw [if_neg h]
    by_cases h0 : (dropToken tok (getDevices s rt)).length = 0
    · rw [if_pos h0]
      exact Or.inr (map_fst_filterOut s.entries (key rt))
    · rw [if_neg h0]
      left
      have hany : s.entries.any (fun e => e.1 == key rt) = true := by
        cases hv : kvGet s (key rt) with
        | none =>
          exfalso
          have hl : getDevices s rt = [] := by simp [getDevices, hv]
          rw [hl] at h
          exact h rfl
        | some l => exact any_key_of_kvGet_some hv
      show storeKeys (kvPut s (key rt) _) = storeKeys s
      simp only [kvPut]
      rw [if_pos hany]
      exact map_fst_update s.entries (key rt) _

theorem find?_key_of_mem_nodup {α : Type _} {l : List (String × α)}
    (hnd : (l.map Prod.fst).Nodup) {e : String × α} (he : e ∈ l) :
    l.find? (fun x => x.1 == e.1) = some e := by
  induction l with
  | nil => cases he
  | cons a l ih =>
    rcases List.mem_cons.mp he with rfl | he'
    · exact List.find?_cons_of_pos _ (by simp)
    · have hne : a.1 ≠ e.1 := by
        intro hh
        have hmem : e.1 ∈ l.map Prod.fst := List.mem_map_of_mem Prod.fst he'
        rw [← hh] at hmem
        exact (List.nodup_cons.mp hnd).1 hmem
      rw [List.find?_cons_of_neg _ (by simp [hne])]
      exact ih (List.nodup_cons.mp hnd).2 he'

theorem kvGet_of_mem_nodup {s : KVStore} (hnd : (storeKeys s).Nodup)
    {e : String × List DeviceRegistration} (he : e ∈ s.entries) :
    kvGet s e.1 = some e.2 := by
  simp only [kvGet]
  rw [find?_key_of_mem_nodup hnd he]
  rfl

/-! ## The global purge (C3): the per-page scan -/

theorem scanKeys_fst_cons (tok : String) (s : KVStore) (k : String) (ks : List String) :
    (scanKeys tok s (k :: ks)).1
      = (if (removeDevice s (k.drop KEY_STEM.length) tok).1 then 1 else 0)
        + (scanKeys tok (removeDevice s (k.drop KEY_STEM.length) tok).2 ks).1 := rfl

theorem scanKeys_snd_cons (tok : String) (s : KVStore) (k : String) (ks : List String) :
    (scanKeys tok s (k :: ks)).2
      = (scanKeys tok (removeDevice s (k.drop KEY_STEM.length) tok).2 ks).2 := rfl

theorem scanKeys_append_fst (tok : String) (a b : List String) :
    ∀ s : KVStore, (scanKeys tok s (a ++ b)).1
      = (scanKeys tok s a).1 + (scanKeys tok (scanKeys tok s a).2 b).1 := by
  induction a with
  | nil =>
    intro s
    show (scanKeys tok s b).1 = (0 : Nat) + (scanKeys tok s b).1
    rw [Nat.zero_add]
  | cons k a ih =>
    intro s
    rw [List.cons_append, scanKeys_fst_cons, ih, scanKeys_fst_cons, scanKeys_snd_cons,
      Nat.add_assoc]

theorem scanKeys_append_snd (tok : String) (a b : List String) :
    ∀ s : KVStore, (scanKeys tok s (a ++ b)).2
      = (scanKeys tok (scanKeys tok s a).2 b).2 := by
  induction a with
  | nil => intro s; rfl
  | cons k a ih =>
    intro s
    rw [List.cons_append, scanKeys_snd_cons, ih, scanKeys_snd_cons]

theorem scanKeys_frame (tok : String) :
    ∀ (ks : List String) (s : KVStore), (∀ k ∈ ks, inStem k = true) →
      ∀ {k' : String}, k' ∉ ks → kvGet (scanKeys tok s ks).2 k' = kvGet s k' := by
  intro ks
  induction ks with
  | nil => intro s _ k' _; rfl
  | cons k ks ih =>
    intro s hstem k' hk'
    have hkey : key (k.drop KEY_STEM.length) = k :=
      key_of_inStem (hstem k (List.mem_cons_self _ _))
    rw [scanKeys_snd_cons,
      ih _ (fun x hx => hstem x (List.mem_cons_of_mem _ hx))
        (fun hc => hk' (List.mem_cons_of_mem _ hc)),
      kvGet_removeDevice_other s _ tok]
    rw [hkey]
    intro hc
    exact hk' (hc ▸ List.mem_cons_self _ _)

theorem scanKeys_kvGet_mem (tok : String) :
    ∀ (ks : List String) (s : KVStore), ks.Nodup → (∀ k ∈ ks, inStem k = true) →
      ∀ k' ∈ ks, kvGet (scanKeys tok s ks).2 k' = purgeVal tok (kvGet s k') := by
  intro ks
  induction ks with
  | nil => intro s _ _ k' hk'; cases hk'
  | cons k ks ih =>
    intro s hnd hstem k' hk'
    have hkey : key (k.drop KEY_STEM.length) = k :=
      key_of_inStem (hstem k (List.mem_cons_self _ _))
    rw [scanKeys_snd_cons]
    rcases List.mem_cons.mp hk' with rfl | hk2
    · have hnotin : k' ∉ ks := (List.nodup_cons.mp hnd).1
      rw [scanKeys_frame tok ks _
        (fun x hx => hstem x (List.mem_cons_of_mem _ hx)) hnotin]
      have hrd := kvGet_removeDevice_key s (k'.drop KEY_STEM.length) tok
      rw [hkey] at hrd
      exact hrd
    · rw [ih _ (List.nodup_cons.mp hnd).2
        (fun x hx => hstem x (List.mem_cons_of_mem _ hx)) k' hk2]
      congr 1
      apply kvGet_removeDevice_other
      rw [hkey]
      intro hc
      exact (List.nodup_cons.mp hnd).1 (hc ▸ hk2)

theorem scanKeys_count (tok : String) :
    ∀ (ks : List String) (s : KVStore), ks.Nodup → (∀ k ∈ ks, inStem k = true) →
      (scanKeys tok s ks).1 = (ks.filter (fun k => hasTok s tok k)).length := by
  intro ks
  induction ks with
  | nil => intro s _ _; rfl
  | cons k ks ih =>
    intro s hnd hstem
    have hkey : key (k.drop KEY_STEM.length) = k :=
      key_of_inStem (hstem k (List.mem_cons_self _ _))
    have hflag : (removeDevice s (k.drop KEY_STEM.length) tok).1 = hasTok s tok k := by
      rw [removeDevice_fst, hkey]
    rw [scanKeys_fst_cons, hflag,
      ih _ (List.nodup_cons.mp hnd).2
        (fun x hx => hstem x (List.mem_cons_of_mem _ hx))]
    have hcong : ks.filter
        (fun x => hasTok (removeDevice s (k.drop KEY_STEM.length) tok).2 tok x)
        = ks.filter (fun x => hasTok s tok x) := by
      apply List.filter_congr
      intro x hx
      simp only [hasTok]
      rw [kvGet_removeDevice_other s _ tok]
      rw [hkey]
      intro hc
      exact (List.nodup_cons.mp hnd).1 (hc ▸ hx)
    rw [hcong, List.filter_cons]
    rcases Bool.eq_false_or_eq_true (hasTok s tok k) with hb | hb
    · rw [hb]
      simp [Nat.add_comm]
    · rw [hb]
      simp

theorem filterOut_filter {q : String → Bool} {a : String} (hqa : q a = false)
    (l : List String) :
    (l.filter (fun x => !(x == a))).filter q = l.filter q := by
  rw [List.filter_filter]
  apply List.filter_congr
  intro x _
  rcases Bool.eq_false_or_eq_true (x == a) with hx | hx
  · simp [beq_iff_eq.mp hx, hqa]
  · simp [hx]

theorem scanKeys_keys_filter (tok : String) (q : String → Bool) :
    ∀ (ks : List String) (s : KVStore), (∀ k ∈ ks, inStem k = true) →
      (∀ k ∈ ks, q k = false) →
      (storeKeys (scanKeys tok s ks).2).filter q = (storeKeys s).filter q := by
  intro ks
  induction ks with
  | nil => intro s _ _; rfl
  | cons k ks ih =>
    intro s hstem hq
    have hkey : key (k.drop KEY_STEM.length) = k :=
      key_of_inStem (hstem k (List.mem_cons_self _ _))
    rw [scanKeys_snd_cons,
      ih _ (fun x hx => hstem x (List.mem_cons_of_mem _ hx))
        (fun x hx => hq x (List.mem_cons_of_mem _ hx))]
    rcases storeKeys_removeDevice s (k.drop KEY_STEM.length) tok with h | h
    · rw [h]
    · rw [h, hkey, filterOut_filter (hq k (List.mem_cons_self _ _))]

theorem scanKeys_keys_nodup (tok : String) :
    ∀ (ks : List String) (s : KVStore), (storeKeys s).Nodup →
      (storeKeys (scanKeys tok s ks).2).Nodup := by
  intro ks
  induction ks with
  | nil => intro s h; exact h
  | cons k ks ih =>
    intro s hnd
    rw [scanKeys_snd_cons]
    apply ih
    rcases storeKeys_removeDevice s (k.drop KEY_STEM.length) tok with h | h
    · rw [h]; exact hnd
    · rw [h]; exact List.Nodup.filter _ hnd

/-! ## The global purge (C3): sorted-listing facts -/

theorem getLastD_mem_of_ne_nil {l : List String} (h : l ≠ []) (d : String) :
    l.getLastD d ∈ l := by
  rw [List.getLastD_eq_getLast?]
  cases hl : l.getLast? with
  | none => exact absurd (List.getLast?_eq_none_iff.mp hl) h
  | some x =>
    show (some x).getD d ∈ l
    exact List.mem_of_mem_getLast? hl

theorem getLastD_default_irrel {l : List String} (h : l ≠ []) (d₁ d₂ : String) :
    l.getLastD d₁ = l.getLastD d₂ := by
  rw [List.getLastD_eq_getLast?, List.getLastD_eq_getLast?]
  cases hl : l.getLast? with
  | none => exact absurd (List.getLast?_eq_none_iff.mp hl) h
  | some x => rfl

theorem sorted_le_getLastD {l : List String}
    (hs : List.Sorted (fun a b : String => a.data ≤ b.data) l) {x : String}
    (hx : x ∈ l) (d : String) : x.data ≤ (l.getLastD d).data := by
  induction l with
  | nil => cases hx
  | cons a l ih =>
    rw [List.getLastD_cons]
    rcases List.mem_cons.mp hx with rfl | hx'
    · cases l with
      | nil => exact le_refl _
      | cons b l' =>
        exact List.rel_of_sorted_cons hs _
          (getLastD_mem_of_ne_nil (List.cons_ne_nil b l') x)
    · rw [getLastD_default_irrel (List.ne_nil_of_mem hx') a d]
      exact ih (List.sorted_cons.mp hs).2 hx'

theorem sorted_nodup_filter_gt :
    ∀ l : List String,
    List.Sorted (fun a b : String => a.data ≤ b.data) l → l.Nodup →
    ∀ n : Nat, 0 < n → n < l.length →
    l.filter (fun k => decide (((l.take n).getLastD "").data < k.data))
      = l.drop n := by
  intro l
  induction l with
  | nil =>
    intro _ _ n _ hlt
    exact absurd hlt (Nat.not_lt_zero n)
  | cons a l ih =>
    intro hs hnd n hpos hlt
    cases n with
    | zero => cases hpos
    | succ m =>
      rw [List.take_succ_cons]
      cases m with
      | zero =>
        rw [List.take_zero]
        have hc : ([a] : List String).getLastD "" = a := rfl
        rw [hc, List.filter_cons, if_neg (by simp), List.drop_succ_cons,
          List.drop_zero, List.filter_eq_self.mpr]
        intro x hx
        simp only [decide_eq_true_eq]
        refine lt_of_le_of_ne (List.rel_of_sorted_cons hs x hx) ?_
        intro hh
        exact (List.nodup_cons.mp hnd).1 (String.ext hh ▸ hx)
      | succ m' =>
        have hlen : m' + 1 < l.length := by
          rw [List.length_cons] at hlt
          omega
        have htne : l.take (m' + 1) ≠ [] := by
          intro hh
          have hlen0 := congrArg List.length hh
          rw [List.length_take] at hlen0
          simp only [List.length_nil] at hlen0
          omega
        rw [List.getLastD_cons, getLastD_default_irrel htne a "", List.filter_cons,
          if_neg ?hc, List.drop_succ_cons]
        · exact ih (List.sorted_cons.mp hs).2 (List.nodup_cons.mp hnd).2 (m' + 1)
            (Nat.succ_pos _) hlen
        case hc =>
          simp only [decide_eq_true_eq, not_lt]
          exact List.rel_of_sorted_cons hs _
            (List.mem_of_mem_take (getLastD_mem_of_ne_nil htne ""))

instance : IsTotal String (fun a b : String => a.data ≤ b.data) :=
  ⟨fun a b => le_total a.data b.data⟩

instance : IsTrans String (fun a b : String => a.data ≤ b.data) :=
  ⟨fun _ _ _ h₁ h₂ => le_trans h₁ h₂⟩

instance : IsAntisymm String (fun a b : String => a.data ≤ b.data) :=
  ⟨fun _ _ h₁ h₂ => String.ext (le_antisymm h₁ h₂)⟩

theorem msort_sorted (s : KVStore) (c : Option String) :
    List.Sorted (fun a b : String => a.data ≤ b.data) (msort s c) :=
  List.sorted_insertionSort _ _

theorem msort_perm (s : KVStore) (c : Option String) :
    (msort s c).Perm ((storeKeys s).filter (fun k => inStem k && afterCur c k)) :=
  List.perm_insertionSort _ _

theorem msort_nodup {s : KVStore} (hnd : (storeKeys s).Nodup) (c : Option String) :
    (msort s c).Nodup :=
  ((msort_perm s c).nodup_iff).mpr (List.Nodup.filter _ hnd)

theorem mem_msort {s : KVStore} {c : Option String} {k : String} :
    k ∈ msort s c ↔ k ∈ storeKeys s ∧ inStem k = true ∧ afterCur c k = true := by
  rw [(msort_perm s c).mem_iff, List.mem_filter]
  simp [Bool.and_eq_true]

/-! ## The global purge (C3): the pagination loop visits every key once -/

theorem rdgLoop_succ (ps : Nat) (tok : String) (fuel : Nat) (s : KVStore)
    (cursor : Option String) :
    rdgLoop ps tok (fuel + 1) s cursor =
      (if (kvList s ps cursor).list_complete
       then scanKeys tok s (kvList s ps cursor).keys
       else ((scanKeys tok s (kvList s ps cursor).keys).1
              + (rdgLoop ps tok fuel (scanKeys tok s (kvList s ps cursor).keys).2
                  (some (kvList s ps cursor).cursor)).1,
             (rdgLoop ps tok fuel (scanKeys tok s (kvList s ps cursor).keys).2
                  (some (kvList s ps cursor).cursor)).2)) := rfl

theorem kvList_keys (s : KVStore) (ps : Nat) (c : Option String) :
    (kvList s ps c).keys = (msort s c).take ps := rfl

theorem kvList_complete (s : KVStore) (ps : Nat) (c : Option String) :
    (kvList s ps c).list_complete = decide ((msort s c).length ≤ ps) := rfl

theorem kvList_cursor (s : KVStore) (ps : Nat) (c : Option String) :
    (kvList s ps c).cursor = ((msort s c).take ps).getLastD "" := rfl

theorem afterCur_of_lt {cursor : Option String} {c' x : String}
    (hc' : afterCur cursor c' = true) (h : c'.data < x.data) :
    afterCur cursor x = true := by
  cases cursor with
  | none => rfl
  | some c =>
    simp only [afterCur, decide_eq_true_eq] at hc' ⊢
    exact lt_trans hc' h

theorem rdgLoop_eq_scanKeys (ps : Nat) (tok : String) (hps : 1 ≤ ps) :
    ∀ (fuel : Nat) (s : KVStore) (cursor : Option String),
      (storeKeys s).Nodup → (msort s cursor).length < fuel →
      rdgLoop ps tok fuel s cursor = scanKeys tok s (msort s cursor) := by
  intro fuel
  induction fuel with
  | zero =>
    intro s cursor _ hlt
    exact absurd hlt (Nat.not_lt_zero _)
  | succ fuel ih =>
    intro s cursor hnd hlt
    rw [rdgLoop_succ, kvList_keys, kvList_complete, kvList_cursor]
    by_cases hcomp : (msort s cursor).length ≤ ps
    · rw [if_pos (by simp [hcomp]), List.take_of_length_le hcomp]
    · rw [if_neg (by simp [hcomp])]
      have hplt : ps < (msort s cursor).length := Nat.lt_of_not_le hcomp
      have hMpos : 0 < (msort s cursor).length :=
        Nat.lt_of_lt_of_le (Nat.lt_of_lt_of_le Nat.zero_lt_one hps) (Nat.le_of_lt hplt)
      have hPne : (msort s cursor).take ps ≠ [] := by
        apply List.ne_nil_of_length_pos
        rw [List.length_take]
        exact lt_min hps hMpos
      have hstem_page : ∀ k ∈ (msort s cursor).take ps, inStem k = true := by
        intro k hk
        exact (mem_msort.mp (List.mem_of_mem_take hk)).2.1
      have hle_page : ∀ k ∈ (msort s cursor).take ps,
          k.data ≤ (((msort s cursor).take ps).getLastD "").data := by
        intro k hk
        exact sorted_le_getLastD
          (List.Pairwise.sublist (List.take_sublist ps _) (msort_sorted s cursor)) hk ""
      have hq_page : ∀ k ∈ (msort s cursor).take ps,
          (inStem k && afterCur (some (((msort s cursor).take ps).getLastD "")) k)
            = false := by
        intro k hk
        have : afterCur (some (((msort s cursor).take ps).getLastD "")) k = false := by
          simp only [afterCur, decide_eq_false_iff_not]
          exact not_lt_of_le (hle_page k hk)
        rw [this, Bool.and_false]
      -- the cursor key is itself a listed key
      have hc'mem : ((msort s cursor).take ps).getLastD "" ∈ msort s cursor :=
        List.mem_of_mem_take (getLastD_mem_of_ne_nil hPne "")
      -- (ii) the tail listing over the old store is exactly the dropped suffix
      have hpt : ∀ x : String,
          (decide ((((msort s cursor).take ps).getLastD "").data < x.data)
            && (inStem x && afterCur cursor x))
          = (inStem x
              && afterCur (some (((msort s cursor).take ps).getLastD "")) x) := by
        intro x
        rcases Bool.eq_false_or_eq_true
            (decide ((((msort s cursor).take ps).getLastD "").data < x.data))
          with hd | hd
        · have hcx : afterCur cursor x = true :=
            afterCur_of_lt (mem_msort.mp hc'mem).2.2 (by simpa using hd)
          have hax : afterCur (some (((msort s cursor).take ps).getLastD "")) x
              = true := by simpa [afterCur] using hd
          rw [hd, hcx, hax]
          simp
        · have hax : afterCur (some (((msort s cursor).take ps).getLastD "")) x
              = false := by simpa [afterCur] using hd
          rw [hd, hax]
          simp
      have hmsort_drop : msort s
            (some (((msort s cursor).take ps).getLastD ""))
          = (msort s cursor).drop ps := by
        have hperm1 := msort_perm s (some (((msort s cursor).take ps).getLastD ""))
        have hperm2 := List.Perm.filter
          (fun k => decide ((((msort s cursor).take ps).getLastD "").data < k.data))
          (msort_perm s cursor)
        rw [List.filter_filter] at hperm2
        have hfe : (storeKeys s).filter
              (fun x => decide ((((msort s cursor).take ps).getLastD "").data
                  < x.data)
                && (inStem x && afterCur cursor x))
            = (storeKeys s).filter
              (fun x => inStem x
                && afterCur (some (((msort s cursor).take ps).getLastD "")) x) :=
          List.filter_congr (fun x _ => hpt x)
        rw [hfe] at hperm2
        have hperm3 : (msort s
              (some (((msort s cursor).take ps).getLastD ""))).Perm
            ((msort s cursor).filter
              (fun k => decide ((((msort s cursor).take ps).getLastD "").data
                < k.data))) :=
          hperm1.trans hperm2.symm
        have heq := List.eq_of_perm_of_sorted hperm3
          (msort_sorted s _)
          (List.Pairwise.sublist (List.filter_sublist _) (msort_sorted s cursor))
        rw [heq]
        exact sorted_nodup_filter_gt (msort s cursor) (msort_sorted s cursor)
          (msort_nodup hnd cursor) ps hps hplt
      -- (i) processing the page does not disturb the tail listing
      have hfilters : (storeKeys (scanKeys tok s ((msort s cursor).take ps)).2).filter
            (fun k => inStem k
              && afterCur (some (((msort s cursor).take ps).getLastD "")) k)
          = (storeKeys s).filter
            (fun k => inStem k
              && afterCur (some (((msort s cursor).take ps).getLastD "")) k) :=
        scanKeys_keys_filter tok _ _ _ hstem_page hq_page
      have hmsort_s1 : msort (scanKeys tok s ((msort s cursor).take ps)).2
            (some (((msort s cursor).take ps).getLastD ""))
          = msort s (some (((msort s cursor).take ps).getLastD "")) :=
        congrArg (List.insertionSort (fun a b : String => a.data ≤ b.data)) hfilters
      have hnd1 : (storeKeys (scanKeys tok s ((msort s cursor).take ps)).2).Nodup :=
        scanKeys_keys_nodup tok _ s hnd
      have hflen : (msort (scanKeys tok s ((msort s cursor).take ps)).2
            (some (((msort s cursor).take ps).getLastD ""))).length < fuel := by
        rw [hmsort_s1, hmsort_drop, List.length_drop]
        exact Nat.lt_of_lt_of_le
          (Nat.sub_lt hMpos (Nat.lt_of_lt_of_le Nat.zero_lt_one hps))
          (Nat.lt_succ_iff.mp hlt)
      rw [ih _ _ hnd1 hflen, hmsort_s1, hmsort_drop]
      conv_rhs => rw [← List.take_append_drop ps (msort s cursor)]
      exact Prod.ext
        (scanKeys_append_fst tok ((msort s cursor).take ps)
          ((msort s cursor).drop ps) s).symm
        (scanKeys_append_snd tok ((msort s cursor).take ps)
          ((msort s cursor).drop ps) s).symm

/-! ## The global purge (C3): main theorem -/

theorem removeDeviceGlobally_eq_scan (ps : Nat) (s : KVStore) (tok : String)
    (hps : 1 ≤ ps) (hnd : (storeKeys s).Nodup) :
    removeDeviceGlobally ps s tok = scanKeys tok s (msort s none) := by
  apply rdgLoop_eq_scanKeys ps tok hps _ s none hnd
  have h1 : (msort s none).length ≤ (storeKeys s).length := by
    rw [(msort_perm s none).length_eq]
    exact List.length_filter_le _ _
  have h2 : (storeKeys s).length = s.entries.length := List.length_map _ _
  omega

theorem exists_entry_of_kvGet_some {s : KVStore} {k : String}
    {l : List DeviceRegistration} (h : kvGet s k = some l) :
    ∃ e ∈ s.entries, e.1 = k ∧ e.2 = l := by
  simp only [kvGet, Option.map_eq_some'] at h
  rcases h with ⟨e, he, hsnd⟩
  exact ⟨e, List.mem_of_find?_eq_some he,
    beq_iff_eq.mp (@List.find?_some _ (fun e => e.1 == k) e s.entries he), hsnd⟩

theorem any_dropToken_false (tok : String) (l : List DeviceRegistration) :
    (dropToken tok l).any (fun d => d.device_token == tok) = false := by
  rw [List.any_eq_false]
  intro d hd
  have := List.of_mem_filter hd
  simpa using this

/-- C3: for every store whose keys all lie in the `devices:` namespace,
`removeDeviceGlobally` — through its cursor-following pagination loop, for
any positive page size — returns the number of tenant entries containing the
token, leaves every entry that did not contain the token unchanged, rewrites
every entry that did contain it to its purged form (entry deleted when it
becomes empty), and leaves no entry containing the token. -/
theorem C3_removeDeviceGlobally_purges (ps : Nat) (s : KVStore) (tok : String)
    (hps : 1 ≤ ps) (hnd : (s.entries.map Prod.fst).Nodup)
    (hstem : ∀ e ∈ s.entries, inStem e.1 = true) :
    (removeDeviceGlobally ps s tok).1
      = (s.entries.filter
          (fun e => e.2.any (fun d => d.device_token == tok))).length
    ∧ (∀ k l, kvGet s k = some l →
        l.any (fun d => d.device_token == tok) = false →
        kvGet (removeDeviceGlobally ps s tok).2 k = some l)
    ∧ (∀ k l, kvGet s k = some l →
        kvGet (removeDeviceGlobally ps s tok).2 k = purgeVal tok (some l))
    ∧ (∀ k l, kvGet (removeDeviceGlobally ps s tok).2 k = some l →
        l.any (fun d => d.device_token == tok) = false) := by
  have hndk : (storeKeys s).Nodup := hnd
  rw [removeDeviceGlobally_eq_scan ps s tok hps hndk]
  have hmnd : (msort s none).Nodup := msort_nodup hndk none
  have hmstem : ∀ k ∈ msort s none, inStem k = true :=
    fun k hk => (mem_msort.mp hk).2.1
  have hmem_of_get : ∀ {k : String} {l : List DeviceRegistration},
      kvGet s k = some l → k ∈ msort s none := by
    intro k l h
    rcases exists_entry_of_kvGet_some h with ⟨e, he, hk, _⟩
    refine mem_msort.mpr ⟨?_, ?_, rfl⟩
    · exact hk ▸ List.mem_map_of_mem Prod.fst he
    · exact hk ▸ hstem e he
  have hentry : ∀ k l, kvGet s k = some l →
      kvGet (scanKeys tok s (msort s none)).2 k = purgeVal tok (some l) := by
    intro k l h
    rw [scanKeys_kvGet_mem tok (msort s none) s hmnd hmstem k (hmem_of_get h), h]
  refine ⟨?_, ?_, hentry, ?_⟩
  · -- count
    rw [scanKeys_count tok (msort s none) s hmnd hmstem]
    have hfil : (storeKeys s).filter (fun k => inStem k && afterCur none k)
        = storeKeys s := by
      rw [List.filter_eq_self]
      intro k hk
      rcases List.mem_map.mp hk with ⟨e, he, rfl⟩
      simp [hstem e he, afterCur]
    have hperm0 : (msort s none).Perm (storeKeys s) := by
      have := msort_perm s none
      rw [hfil] at this
      exact this
    rw [(hperm0.filter (fun k => hasTok s tok k)).length_eq]
    have hfm : (storeKeys s).filter (fun k => hasTok s tok k)
        = (s.entries.filter ((fun k => hasTok s tok k) ∘ Prod.fst)).map Prod.fst := by
      simp only [storeKeys]
      exact List.filter_map Prod.fst s.entries
    rw [hfm, List.length_map]
    apply congrArg List.length
    apply List.filter_congr
    intro e he
    show ((fun k => hasTok s tok k) ∘ Prod.fst) e
      = e.2.any (fun d => d.device_token == tok)
    simp only [Function.comp_apply, hasTok]
    rw [kvGet_of_mem_nodup hndk he]
    rfl
  · -- untouched entries
    intro k l h hno
    rw [hentry k l h]
    simp only [purgeVal]
    rw [if_pos (dropToken_length_eq_iff.mpr hno)]
  · -- nothing containing the token remains
    intro k l hfin
    by_cases hk : k ∈ msort s none
    · cases hv : kvGet s k with
      | none =>
        rw [scanKeys_kvGet_mem tok (msort s none) s hmnd hmstem k hk, hv] at hfin
        cases hfin
      | some l0 =>
        rw [hentry k l0 hv] at hfin
        simp only [purgeVal] at hfin
        by_cases h1 : (dropToken tok l0).length = l0.length
        · rw [if_pos h1] at hfin
          cases hfin
          exact dropToken_length_eq_iff.mp h1
        · rw [if_neg h1] at hfin
          by_cases h0 : (dropToken tok l0).length = 0
          · rw [if_pos h0] at hfin
            cases hfin
          · rw [if_neg h0] at hfin
            cases hfin
            exact any_dropToken_false tok l0
    · rw [scanKeys_frame tok (msort s none) s hmstem hk] at hfin
      exact absurd (hmem_of_get hfin) hk

theorem C3_removeDeviceGlobally_purges_witness :
    (removeDeviceGlobally 1
        ⟨[(key "b1", [⟨.ios, "tok", none, "T"⟩]),
          (key "b2", [⟨.ios, "tok", none, "T"⟩, ⟨.android, "oth", none, "T"⟩]),
          (key "b3", [⟨.android, "oth", none, "T"⟩])]⟩ "tok").1
      = (([(key "b1", [⟨.ios, "tok", none, "T"⟩]),
          (key "b2", [⟨.ios, "tok", none, "T"⟩, ⟨.android, "oth", none, "T"⟩]),
          (key "b3", [⟨.android, "oth", none, "T"⟩])]
            : List (String × List DeviceRegistration)).filter
          (fun e => e.2.any (fun d => d.device_token == "tok"))).length
    ∧ kvGet (removeDeviceGlobally 1
        ⟨[(key "b1", [⟨.ios, "tok", none, "T"⟩]),
          (key "b2", [⟨.ios, "tok", none, "T"⟩, ⟨.android, "oth", none, "T"⟩]),
          (key "b3", [⟨.android, "oth", none, "T"⟩])]⟩ "tok").2 (key "b3")
      = some [⟨.android, "oth", none, "T"⟩]
    ∧ (removeDeviceGlobally 1
        ⟨[(key "b1", [⟨.ios, "tok", none, "T"⟩]),
          (key "b2", [⟨.ios, "tok", none, "T"⟩, ⟨.android, "oth", none, "T"⟩]),
          (key "b3", [⟨.android, "oth", none, "T"⟩])]⟩ "tok").1 = 2 :=
  ⟨(C3_removeDeviceGlobally_purges 1
      ⟨[(key "b1", [⟨.ios, "tok", none, "T"⟩]),
        (key "b2", [⟨.ios, "tok", none, "T"⟩, ⟨.android, "oth", none, "T"⟩]),
        (key "b3", [⟨.android, "oth", none, "T"⟩])]⟩ "tok"
      (by decide) (by decide) (by decide)).1,
   (C3_removeDeviceGlobally_purges 1
      ⟨[(key "b1", [⟨.ios, "tok", none, "T"⟩]),
        (key "b2", [⟨.ios, "tok", none, "T"⟩, ⟨.android, "oth", none, "T"⟩]),
        (key "b3", [⟨.android, "oth", none, "T"⟩])]⟩ "tok"
      (by decide) (by decide) (by decide)).2.1 (key "b3")
      [⟨.android, "oth", none, "T"⟩] (by decide) (by decide),
   by decide⟩

end PushRelay
